import Mathlib

/-!
Verification of the storage manager of the chrome-chat-sidebar extension
(src/chrome-chat-sidebar/background.js) against its specification.

The JavaScript storage manager is shallowly embedded: each function of the
source is translated into an executable Lean definition over an explicit
store state.  JavaScript numbers are modelled as integers (all numbers the
storage manager handles are epoch-millisecond timestamps, byte counts and
list lengths); Date.now() and the generated random ids are passed in as
explicit parameters; the chrome.storage.local key-value namespace is
modelled by a typed store whose four key prefixes (session_, backup_,
tabState_, error_) become four typed components, with the id/timestamp
parts of the keys kept as structured data.  Fallible operations return
Except values, and every chrome.storage.local access performed by an
operation is additionally recorded in an event trace so that ordering
properties (quota checked before write) can be stated.
-/

/-- A primitive JavaScript value, as far as the storage manager's validators
inspect values: null, undefined, strings, numbers and booleans.  Numbers are
modelled as integers (the code only handles timestamps and counts). -/
inductive JSVal where
  | null
  | undef
  | str (s : String)
  | num (n : Int)
  | boolean (b : Bool)
deriving DecidableEq, Repr

/-- JavaScript truthiness of a primitive value: null, undefined, the empty
string, 0 and false are falsy. -/
def JSVal.truthy : JSVal → Bool
  | .null => false
  | .undef => false
  | .str s => !(s = "")
  | .num n => !(n = 0)
  | .boolean b => b

/-- typeof v === 'string'. -/
def JSVal.isString : JSVal → Bool
  | .str _ => true
  | _ => false

/-- typeof v === 'number'. -/
def JSVal.isNumber : JSVal → Bool
  | .num _ => true
  | _ => false

/-- The numeric payload of a value (only meaningful when isNumber). -/
def JSVal.asNum : JSVal → Int
  | .num n => n
  | _ => 0

/-- v.length for a string value (only meaningful when isString). -/
def JSVal.strLen : JSVal → Nat
  | .str s => s.length
  | _ => 0

/-- The raw shape of an object passed to validateMessageData: the three
fields the validator reads, each an arbitrary primitive value (a missing
field reads as undefined).  The type and metadata fields of a message are
not examined by the validator. -/
structure MsgObj where
  id : JSVal
  content : JSVal
  timestamp : JSVal
deriving DecidableEq, Repr

/-- An arbitrary input to validateMessageData: either a primitive
(non-object) value or an object with the three inspected fields. -/
inductive MsgInput where
  | prim (v : JSVal)
  | obj (m : MsgObj)
deriving DecidableEq, Repr

/-- background.js validateMessageData: the message must be a non-null
object; id, content and timestamp must be truthy; id and content must be
strings; timestamp must be a number strictly greater than 0; content must
be at most 10000 characters.  (For a primitive input the first guard
!message or typeof message !== 'object' fails: null is falsy, and no other
primitive has typeof 'object'.) -/
def validateMessageData (message : MsgInput) : Bool :=
  match message with
  | .prim _ => false
  | .obj m =>
    if !m.id.truthy || !m.content.truthy || !m.timestamp.truthy then false
    else if !m.id.isString || !m.content.isString then false
    else if !m.timestamp.isNumber || decide (m.timestamp.asNum ≤ 0) then false
    else if decide (m.content.strLen > 10000) then false
    else true

/-- The raw messages field of a session object: either not an array at all,
or an array of arbitrary message-shaped values. -/
inductive RawMessages where
  | notArray (v : JSVal)
  | array (xs : List MsgInput)
deriving DecidableEq, Repr

/-- The raw shape of an object passed to validateSessionData: the fields the
validator reads. -/
structure RawSession where
  id : JSVal
  createdAt : JSVal
  lastActivity : JSVal
  messages : RawMessages
deriving DecidableEq, Repr

/-- An arbitrary input to validateSessionData. -/
inductive SessionInput where
  | prim (v : JSVal)
  | obj (s : RawSession)
deriving DecidableEq, Repr

/-- background.js validateSessionData: non-null object, truthy id, messages
present and an array (an array is always truthy, so the !sessionData.messages
guard only rejects non-array falsy values, which the Array.isArray guard
rejects as well), numeric createdAt and lastActivity, and every element of
messages individually valid. -/
def validateSessionData (sessionData : SessionInput) : Bool :=
  match sessionData with
  | .prim _ => false
  | .obj s =>
    match s.messages with
    | .notArray _ => false
    | .array xs =>
      if !s.id.truthy then false
      else if !s.createdAt.isNumber || !s.lastActivity.isNumber then false
      else xs.all validateMessageData

/-- C8.  The message validator accepts exactly the non-null objects whose id
and content are non-empty strings, whose timestamp is a number strictly
greater than 0, and whose content is at most 10000 characters long. -/
theorem validateMessageData_iff (message : MsgInput) :
    validateMessageData message = true ↔
      ∃ m : MsgObj, message = .obj m ∧
        (∃ i : String, m.id = .str i ∧ i ≠ "") ∧
        (∃ c : String, m.content = .str c ∧ c ≠ "" ∧ c.length ≤ 10000) ∧
        (∃ t : Int, m.timestamp = .num t ∧ 0 < t) := by
  cases message with
  | prim v => simp [validateMessageData]
  | obj m =>
    obtain ⟨i, c, t⟩ := m
    simp only [validateMessageData, MsgInput.obj.injEq, exists_eq_left']
    cases i <;> cases c <;> cases t <;>
      simp only [JSVal.truthy, JSVal.isString, JSVal.isNumber, JSVal.asNum, JSVal.strLen,
        Bool.not_true, Bool.not_false, Bool.false_or, Bool.true_or, Bool.or_true,
        Bool.or_false, Bool.not_eq_true', Bool.not_eq_false', if_true, if_false,
        reduceCtorEq, JSVal.str.injEq, JSVal.num.injEq] <;>
      first
      | (simp; done)
      | (simp
         exact ⟨fun h => ⟨h.1.1.1, ⟨h.1.1.2, h.2.2⟩, h.2.1⟩,
           fun h => ⟨⟨⟨h.1, h.2.1.1⟩, ne_of_gt h.2.2⟩, h.2.2, h.2.1.2⟩⟩)

/-- The metadata attached to a message by handleSaveMessage: the source url
and tab id of the request (either may be absent). -/
structure Metadata where
  url : Option String
  tabId : Option Int
deriving DecidableEq, Repr

/-- A stored chat message (the well-typed shape produced by
handleSaveMessage and held in a session's messages array). -/
structure Message where
  id : String
  content : String
  timestamp : Int
  type : String
  metadata : Option Metadata
deriving DecidableEq, Repr

/-- The compressed form of a message kept in backups: createSessionBackup
keeps only id, content, timestamp and type (metadata is dropped). -/
structure CompressedMessage where
  id : String
  content : String
  timestamp : Int
  type : String
deriving DecidableEq, Repr

/-- The per-message compression performed by createSessionBackup. -/
def compressMessage (msg : Message) : CompressedMessage :=
  { id := msg.id, content := msg.content, timestamp := msg.timestamp, type := msg.type }

/-- A message restored from a backup: the stored object simply has no
metadata field, which the typed model renders as metadata = none. -/
def decompressMessage (msg : CompressedMessage) : Message :=
  { id := msg.id, content := msg.content, timestamp := msg.timestamp, type := msg.type,
    metadata := none }

/-- A stored chat session (value of a session_<id> key). -/
structure Session where
  id : String
  messages : List Message
  createdAt : Int
  lastActivity : Int
deriving DecidableEq, Repr

/-- A stored backup object (value of a backup_<sessionId>_<ts> key),
as built by createSessionBackup. -/
structure Backup where
  id : String
  messages : List CompressedMessage
  createdAt : Int
  lastActivity : Int
  backupCreatedAt : Int
  version : String
deriving DecidableEq, Repr

/-- One backup_<sessionId>_<ts> entry of the store: the two structured
parts of its key together with the stored backup object.  The code filters
backup keys with startsWith on the backup_<sessionId>_ prefix and parses
the timestamp back out of the final _-separated part of the key; since the
keys are built by string concatenation from exactly these two parts (and the
timestamp rendering holds no underscore), prefix matching is session-id
equality and parsing recovers ts, which is how the model renders both. -/
structure BackupEntry where
  sessionId : String
  ts : Int
  data : Backup
deriving DecidableEq, Repr

/-- A stored tab state (value of a tabState_<tabId> key). -/
structure TabState where
  visible : Bool
  url : String
  lastUpdate : Int
deriving DecidableEq, Repr

/-- An error log entry (value of an error_<ts>_<rand> key); the model keeps
the key timestamp and the error type. -/
structure ErrorEntry where
  ts : Int
  etype : String
deriving DecidableEq, Repr

/-- The chrome.storage.local namespace, split by the four key prefixes the
storage manager uses plus the singleton keys.  Lists are kept in object
insertion order (Object.entries order); sessions are keyed by the id part
of their session_<id> key. -/
structure Store where
  sessions : List (String × Session)
  backups : List BackupEntry
  tabStates : List (Int × TabState)
  errors : List ErrorEntry
  sidebarVisible : Option Bool
  currentSession : Option String
deriving DecidableEq, Repr

/-- One chrome.storage.local access, recorded so that ordering properties
(quota checked before write) can be stated.  quotaCheck stands for the
getBytesInUse measurement performed by checkStorageQuota. -/
inductive StorageEvent where
  | quotaCheck
  | get (keys : List String)
  | set (keys : List String)
  | remove (keys : List String)
deriving DecidableEq, Repr

/-- The string key of a session entry. -/
def sessionKeyStr (sessionId : String) : String := "session_" ++ sessionId

/-- The string key of a backup entry. -/
def backupKeyStr (sessionId : String) (ts : Int) : String :=
  "backup_" ++ sessionId ++ "_" ++ toString ts

/-- The string key of a tab state entry. -/
def tabStateKeyStr (tabId : Int) : String := "tabState_" ++ toString tabId

/-- The string key of an error entry (the random suffix is not modelled). -/
def errorKeyStr (ts : Int) : String := "error_" ++ toString ts

/-- A well-typed message viewed as an input to validateMessageData. -/
def Message.toMsgInput (msg : Message) : MsgInput :=
  .obj { id := .str msg.id, content := .str msg.content, timestamp := .num msg.timestamp }

/-- A compressed backup message viewed as an input to validateMessageData. -/
def CompressedMessage.toMsgInput (msg : CompressedMessage) : MsgInput :=
  .obj { id := .str msg.id, content := .str msg.content, timestamp := .num msg.timestamp }

/-- A well-typed session viewed as an input to validateSessionData. -/
def Session.toSessionInput (sess : Session) : SessionInput :=
  .obj { id := .str sess.id, createdAt := .num sess.createdAt,
         lastActivity := .num sess.lastActivity,
         messages := .array (sess.messages.map Message.toMsgInput) }

/-- A stored backup object viewed as an input to validateSessionData (the
extra backupCreatedAt and version fields are not read by the validator). -/
def Backup.toSessionInput (b : Backup) : SessionInput :=
  .obj { id := .str b.id, createdAt := .num b.createdAt,
         lastActivity := .num b.lastActivity,
         messages := .array (b.messages.map CompressedMessage.toMsgInput) }

/-- Stable sort descending by an integer key: the model of
array.sort((a, b) => key(b) - key(a)).  Array.prototype.sort is stable, and
for a consistent comparator every stable sort produces the same output, so
insertion sort (which is stable for this relation) renders it faithfully. -/
def sortByKeyDesc (key : α → Int) (l : List α) : List α :=
  List.insertionSort (fun a b => key b ≤ key a) l

/-- Stable sort ascending by an integer key: the model of
array.sort((a, b) => key(a) - key(b)). -/
def sortByKeyAsc (key : α → Int) (l : List α) : List α :=
  List.insertionSort (fun a b => key a ≤ key b) l

theorem perm_sortByKeyDesc (key : α → Int) (l : List α) : (sortByKeyDesc key l).Perm l :=
  List.perm_insertionSort _ l

theorem perm_sortByKeyAsc (key : α → Int) (l : List α) : (sortByKeyAsc key l).Perm l :=
  List.perm_insertionSort _ l

theorem pairwise_sortByKeyDesc (key : α → Int) (l : List α) :
    (sortByKeyDesc key l).Pairwise (fun a b => key b ≤ key a) := by
  haveI : IsTotal α (fun a b => key b ≤ key a) := ⟨fun a b => le_total (key b) (key a)⟩
  haveI : IsTrans α (fun a b => key b ≤ key a) := ⟨fun a b c h1 h2 => le_trans h2 h1⟩
  exact List.sorted_insertionSort _ l

theorem pairwise_sortByKeyAsc (key : α → Int) (l : List α) :
    (sortByKeyAsc key l).Pairwise (fun a b => key a ≤ key b) := by
  haveI : IsTotal α (fun a b => key a ≤ key b) := ⟨fun a b => le_total (key a) (key b)⟩
  haveI : IsTrans α (fun a b => key a ≤ key b) := ⟨fun a b c h1 h2 => le_trans h1 h2⟩
  exact List.sorted_insertionSort _ l

/-- When the input is a permutation of a strictly descending target, the
descending sort returns exactly that target. -/
theorem sortByKeyDesc_eq_of_perm (key : α → Int) {l tgt : List α} (hperm : l.Perm tgt)
    (hsorted : tgt.Pairwise fun a b => key b < key a) : sortByKeyDesc key l = tgt := by
  haveI : IsAntisymm α (fun a b => key b < key a) :=
    ⟨fun a b h1 h2 => absurd (lt_trans h1 h2) (lt_irrefl _)⟩
  have h1 : (sortByKeyDesc key l).Perm tgt := (perm_sortByKeyDesc key l).trans hperm
  have hnd : tgt.Pairwise (fun a b => key a ≠ key b) := hsorted.imp fun h => ne_of_gt h
  have hnd' : (sortByKeyDesc key l).Pairwise (fun a b => key a ≠ key b) := by
    refine (List.Perm.pairwise_iff ?_ h1).mpr hnd
    intro a b h
    exact h.symm
  have hs : (sortByKeyDesc key l).Pairwise (fun a b => key b < key a) :=
    ((pairwise_sortByKeyDesc key l).and hnd').imp fun h =>
      lt_of_le_of_ne h.1 fun hh => h.2 hh.symm
  exact List.eq_of_perm_of_sorted h1 hs hsorted

/-- When the input is a permutation of a strictly ascending target, the
ascending sort returns exactly that target. -/
theorem sortByKeyAsc_eq_of_perm (key : α → Int) {l tgt : List α} (hperm : l.Perm tgt)
    (hsorted : tgt.Pairwise fun a b => key a < key b) : sortByKeyAsc key l = tgt := by
  haveI : IsAntisymm α (fun a b => key a < key b) :=
    ⟨fun a b h1 h2 => absurd (lt_trans h1 h2) (lt_irrefl _)⟩
  have h1 : (sortByKeyAsc key l).Perm tgt := (perm_sortByKeyAsc key l).trans hperm
  have hnd : tgt.Pairwise (fun a b => key a ≠ key b) := hsorted.imp fun h => ne_of_lt h
  have hnd' : (sortByKeyAsc key l).Pairwise (fun a b => key a ≠ key b) := by
    refine (List.Perm.pairwise_iff ?_ h1).mpr hnd
    intro a b h
    exact h.symm
  have hs : (sortByKeyAsc key l).Pairwise (fun a b => key a < key b) :=
    ((pairwise_sortByKeyAsc key l).and hnd').imp fun h => lt_of_le_of_ne h.1 h.2
  exact List.eq_of_perm_of_sorted h1 hs hsorted

/-- chrome.storage.local.set on a session key: replace in place when the key
exists (JavaScript objects keep the original insertion position of an
overwritten key), append otherwise. -/
def setSession (sessionId : String) (v : Session) : List (String × Session) → List (String × Session)
  | [] => [(sessionId, v)]
  | (k, w) :: rest =>
    if k = sessionId then (k, v) :: rest else (k, w) :: setSession sessionId v rest

/-- chrome.storage.local.set on a backup key (keyed by session id and
timestamp): replace in place when present, append otherwise. -/
def setBackup (sessionId : String) (ts : Int) (b : Backup) : List BackupEntry → List BackupEntry
  | [] => [{ sessionId := sessionId, ts := ts, data := b }]
  | e :: rest =>
    if e.sessionId = sessionId ∧ e.ts = ts then { sessionId := sessionId, ts := ts, data := b } :: rest
    else e :: setBackup sessionId ts b rest

/-- chrome.storage.local.set on a tabState key. -/
def setTabState (tabId : Int) (v : TabState) : List (Int × TabState) → List (Int × TabState)
  | [] => [(tabId, v)]
  | (k, w) :: rest =>
    if k = tabId then (k, v) :: rest else (k, w) :: setTabState tabId v rest

/-- The backup entries of a store whose key carries the given session id
(the keys matched by startsWith backup_<sessionId>_). -/
def backupsFor (sessionId : String) (st : Store) : List BackupEntry :=
  st.backups.filter (fun e => e.sessionId = sessionId)

/-- The quota record computed by checkStorageQuota from the byte count that
chrome.storage.local.getBytesInUse reports (passed in as a parameter).  The
usagePercentage field of the source is a floating-point percentage used only
for logging and is not modelled. -/
structure QuotaInfo where
  usedBytes : Int
  totalBytes : Int
  availableBytes : Int
  hasSpace : Bool
deriving DecidableEq, Repr

/-- The 4.5 MB storage limit of checkStorageQuota (4.5 * 1024 * 1024). -/
def STORAGE_LIMIT : Int := 4718592

/-- background.js checkStorageQuota. -/
def checkStorageQuota (bytesInUse : Int) : QuotaInfo :=
  { usedBytes := bytesInUse
    totalBytes := STORAGE_LIMIT
    availableBytes := STORAGE_LIMIT - bytesInUse
    hasSpace := decide (bytesInUse < STORAGE_LIMIT) }

/-- background.js logError: store an error entry under a fresh error_<ts>
key, then prune with cleanupErrorLogs to the 50 most recent entries (error
keys sort by their embedded timestamp, which for entries appended in time
order is insertion order; the model prunes the oldest entries of the
insertion-ordered list). -/
def logError (etype : String) (now : Int) (st : Store) : Store × List StorageEvent :=
  let withNew := st.errors ++ [{ ts := now, etype := etype }]
  let pruned := if withNew.length > 50 then withNew.drop (withNew.length - 50) else withNew
  ({ st with errors := pruned },
   [.set [errorKeyStr now], .get []] ++
     (if withNew.length > 50 then [.remove ((withNew.take (withNew.length - 50)).map (fun e => errorKeyStr e.ts))] else []))

/-- background.js cleanupOldBackups: collect the backup entries of the
session, and when more than 3 exist sort them by key timestamp descending
and remove all but the 3 most recent. -/
def cleanupOldBackups (sessionId : String) (st : Store) : Store × List StorageEvent :=
  let backups := backupsFor sessionId st
  if backups.length > 3 then
    let sorted := sortByKeyDesc (fun e => e.ts) backups
    let backupsToRemove := sorted.drop 3
    let keysToRemove := backupsToRemove.map (fun e => (e.sessionId, e.ts))
    ({ st with backups := st.backups.filter (fun e => !(keysToRemove.contains (e.sessionId, e.ts))) },
     [.get [], .remove (backupsToRemove.map (fun e => backupKeyStr e.sessionId e.ts))])
  else (st, [.get []])

/-- The backup object createSessionBackup builds from a session. -/
def mkBackup (sessionId : String) (sessionData : Session) (now : Int) : Backup :=
  { id := sessionId
    messages := sessionData.messages.map compressMessage
    createdAt := sessionData.createdAt
    lastActivity := sessionData.lastActivity
    backupCreatedAt := now
    version := "1.0" }

/-- background.js createSessionBackup: store the compressed backup under
backup_<sessionId>_<now>, then prune that session's backups with
cleanupOldBackups. -/
def createSessionBackup (sessionId : String) (sessionData : Session) (now : Int) (st : Store) :
    Store × List StorageEvent :=
  let stored := { st with backups := setBackup sessionId now (mkBackup sessionId sessionData now) st.backups }
  let cleaned := cleanupOldBackups sessionId stored
  (cleaned.1, [.set [backupKeyStr sessionId now]] ++ cleaned.2)

/-- background.js restoreSessionFromBackup: collect the session's backup
entries, return null when none exist, otherwise the data of the entry with
the most recent key timestamp (sort descending, take the first). -/
def restoreSessionFromBackup (sessionId : String) (st : Store) :
    Option Backup × List StorageEvent :=
  let backups := backupsFor sessionId st
  match sortByKeyDesc (fun e => e.ts) backups with
  | [] => (none, [.get []])
  | e :: _ => (some e.data, [.get []])

/-- The page record returned by paginateMessages.  In the session-not-found,
no-backup path of getMessagesFromSessionPaginated the source returns a
record without offset and limit fields; the model fills them with the
request values there (no claim reads them on that path). -/
structure PageResult where
  messages : List Message
  total : Nat
  hasMore : Bool
  offset : Nat
  limit : Nat
deriving DecidableEq, Repr

/-- background.js paginateMessages: sort a copy of the list by timestamp
descending (newest first), slice [max 0 offset, min total (offset + limit)),
and reverse the slice back to chronological order.  Offsets are natural
numbers in the model, rendering Math.max(0, offset). -/
def paginateMessages (messages : List Message) (offset limit : Nat) : PageResult :=
  let total := messages.length
  let sortedMessages := sortByKeyDesc (fun m => m.timestamp) messages
  let startIndex := offset
  let endIndex := min total (startIndex + limit)
  let paginatedMessages := (sortedMessages.drop startIndex).take (endIndex - startIndex)
  { messages := paginatedMessages.reverse
    total := total
    hasMore := decide (endIndex < total)
    offset := offset
    limit := limit }

/-- The salvage step of recoverCorruptedSession on a well-typed stored
session: keep exactly the individually valid messages (the typed instance of
the raw salvage loop; the raw version used by the corruption claims is
recoverCorruptedSession below). -/
def salvageMessages (messages : List Message) : List Message :=
  messages.filter (fun m => validateMessageData m.toMsgInput)

/-- background.js getMessagesFromSessionPaginated: read the session; when
absent, paginate the most recent backup if one exists, else return the empty
page; when present but failing validation, recover (backup first, else
salvage the valid messages) and paginate the recovered messages; otherwise
paginate the stored messages. -/
def getMessagesFromSessionPaginated (sessionId : String) (offset limit : Nat) (st : Store) :
    PageResult × List StorageEvent :=
  match st.sessions.find? (fun p => p.1 = sessionId) with
  | none =>
    match restoreSessionFromBackup sessionId st with
    | (some b, tr) =>
      (paginateMessages (b.messages.map decompressMessage) offset limit,
       [.get [sessionKeyStr sessionId]] ++ tr)
    | (none, tr) =>
      ({ messages := [], total := 0, hasMore := false, offset := offset, limit := limit },
       [.get [sessionKeyStr sessionId]] ++ tr)
  | some p =>
    if validateSessionData p.2.toSessionInput then
      (paginateMessages p.2.messages offset limit, [.get [sessionKeyStr sessionId]])
    else
      match restoreSessionFromBackup sessionId st with
      | (some b, tr) =>
        if validateSessionData b.toSessionInput then
          (paginateMessages (b.messages.map decompressMessage) offset limit,
           [.get [sessionKeyStr sessionId]] ++ tr)
        else
          (paginateMessages (salvageMessages p.2.messages) offset limit,
           [.get [sessionKeyStr sessionId]] ++ tr)
      | (none, tr) =>
        (paginateMessages (salvageMessages p.2.messages) offset limit,
         [.get [sessionKeyStr sessionId]] ++ tr)

theorem length_sortByKeyDesc (key : α → Int) (l : List α) :
    (sortByKeyDesc key l).length = l.length :=
  (perm_sortByKeyDesc key l).length_eq

/-- The 120 messages of the pagination scenario: saved sequentially, so
timestamps are strictly increasing. -/
def scenarioMessages : List Message :=
  (List.range 120).map (fun k => ⟨"m" ++ toString k, "hello", (k : Int) + 1, "user", none⟩)

/-- A store holding one session S2 with the 120 scenario messages. -/
def scenarioStore : Store :=
  { sessions := [("S2", ⟨"S2", scenarioMessages, 1, 120⟩)]
    backups := []
    tabStates := []
    errors := []
    sidebarVisible := none
    currentSession := some "S2" }

set_option maxRecDepth 100000 in
/-- C2.  paginateMessages sorts by timestamp descending, selects the slice
[offset, offset+limit), reverses it back to chronological order, and returns
total = length and hasMore = (offset + limit < total); in particular, on a
session holding 120 sequentially saved messages, page (offset 0, limit 50)
returns the 50 most recent messages in chronological order with
hasMore = true and total = 120. -/
theorem paginateMessages_spec (msgs : List Message) (offset limit : Nat) (hl : 0 < limit) :
    (paginateMessages msgs offset limit).messages
        = (((sortByKeyDesc (fun m => m.timestamp) msgs).drop offset).take limit).reverse
      ∧ (paginateMessages msgs offset limit).messages.Pairwise
          (fun a b => a.timestamp ≤ b.timestamp)
      ∧ (paginateMessages msgs offset limit).total = msgs.length
      ∧ ((paginateMessages msgs offset limit).hasMore = true ↔ offset + limit < msgs.length)
      ∧ ((getMessagesFromSessionPaginated "S2" 0 50 scenarioStore).1.messages
            = scenarioMessages.drop 70
          ∧ (getMessagesFromSessionPaginated "S2" 0 50 scenarioStore).1.hasMore = true
          ∧ (getMessagesFromSessionPaginated "S2" 0 50 scenarioStore).1.total = 120) := by
  have hlen : (sortByKeyDesc (fun m : Message => m.timestamp) msgs).length = msgs.length :=
    length_sortByKeyDesc _ _
  have hslice :
      ((sortByKeyDesc (fun m : Message => m.timestamp) msgs).drop offset).take
          (min msgs.length (offset + limit) - offset)
        = ((sortByKeyDesc (fun m : Message => m.timestamp) msgs).drop offset).take limit := by
    rw [List.take_eq_take]
    rw [List.length_drop, hlen]
    omega
  refine ⟨?_, ?_, rfl, ?_, ?_⟩
  · simp only [paginateMessages]
    rw [hslice]
  · simp only [paginateMessages]
    rw [hslice]
    rw [List.pairwise_reverse]
    have hsub : (((sortByKeyDesc (fun m : Message => m.timestamp) msgs).drop offset).take limit).Sublist
        (sortByKeyDesc (fun m : Message => m.timestamp) msgs) :=
      (List.take_sublist _ _).trans (List.drop_sublist _ _)
    exact (pairwise_sortByKeyDesc _ msgs).sublist hsub
  · simp only [paginateMessages, decide_eq_true_eq]
    omega
  · refine ⟨?_, ?_, ?_⟩ <;> decide

/-- String.prototype.trim, modelled over the character list with
Char.isWhitespace as the whitespace class: drop whitespace from the left,
then from the right. -/
def trimString (s : String) : String :=
  ⟨List.rdropWhile Char.isWhitespace (s.data.dropWhile Char.isWhitespace)⟩

/-- background.js cleanupOldSessions: collect the session entries with a
truthy lastActivity, sort ascending by lastActivity (oldest first), and when
more than 10 exist remove all but the 10 most recent.  No backup is taken on
this path. -/
def cleanupOldSessions (st : Store) : Store × List StorageEvent :=
  let sessions := st.sessions.filter (fun p => !(p.2.lastActivity = 0))
  let sorted := sortByKeyAsc (fun p => p.2.lastActivity) sessions
  if sorted.length > 10 then
    let sessionsToRemove := sorted.take (sorted.length - 10)
    let keysToRemove := sessionsToRemove.map (fun p => p.1)
    ({ st with sessions := st.sessions.filter (fun p => !(keysToRemove.contains p.1)) },
     [.get [], .remove (keysToRemove.map sessionKeyStr)])
  else (st, [.get []])

/-- The backup loop of performEmergencyCleanup over the sessions about to be
evicted: create a backup of each (under the id stored in the session value),
threading the store.  Date.now() during the loop is rendered by the single
now parameter. -/
def backupEvicted (now : Int) : List (String × Session) → Store → Store × List StorageEvent
  | [], st => (st, [])
  | p :: rest, st =>
    let step := createSessionBackup p.2.id p.2 now st
    let next := backupEvicted now rest step.1
    (next.1, step.2 ++ next.2)

/-- The truncation loop of performEmergencyCleanup over the surviving
sessions: any session with more than 100 messages is backed up and then cut
to its 100 most recent messages, written back under its key. -/
def truncateRemaining (now : Int) : List (String × Session) → Store → Store × List StorageEvent
  | [], st => (st, [])
  | p :: rest, st =>
    if p.2.messages.length > 100 then
      let step := createSessionBackup p.2.id p.2 now st
      let truncated := { p.2 with messages := p.2.messages.drop (p.2.messages.length - 100) }
      let st2 := { step.1 with sessions := setSession p.1 truncated step.1.sessions }
      let next := truncateRemaining now rest st2
      (next.1, step.2 ++ [.set [sessionKeyStr p.1]] ++ next.2)
    else
      truncateRemaining now rest st

/-- background.js performEmergencyCleanup: remove all error logs, remove all
tab states, evict all but the 3 most recently active sessions (each backed
up first), and truncate every surviving session to its 100 most recent
messages (backed up first).  When at most 3 sessions exist the array is
never sorted and every session survives. -/
def performEmergencyCleanup (now : Int) (st : Store) : Store × List StorageEvent :=
  let sessions := st.sessions
  let trErr : List StorageEvent :=
    if st.errors.length > 0 then [.remove (st.errors.map (fun e => errorKeyStr e.ts))] else []
  let trTab : List StorageEvent :=
    if st.tabStates.length > 0 then [.remove (st.tabStates.map (fun p => tabStateKeyStr p.1))] else []
  let st1 := { st with errors := [], tabStates := [] }
  if sessions.length > 3 then
    let sorted := sortByKeyDesc (fun p => p.2.lastActivity) sessions
    let sessionsToRemove := sorted.drop 3
    let afterBackups := backupEvicted now sessionsToRemove st1
    let keysToRemove := sessionsToRemove.map (fun p => p.1)
    let st3 := { afterBackups.1 with
      sessions := afterBackups.1.sessions.filter (fun p => !(keysToRemove.contains p.1)) }
    let afterTrunc := truncateRemaining now (sorted.take 3) st3
    (afterTrunc.1,
     [.get []] ++ trErr ++ trTab ++ afterBackups.2 ++
       [.remove (keysToRemove.map sessionKeyStr)] ++ afterTrunc.2)
  else
    let afterTrunc := truncateRemaining now sessions st1
    (afterTrunc.1, [.get []] ++ trErr ++ trTab ++ afterTrunc.2)

/-- background.js checkStorageLimitsAndCleanup: when the session holds more
than 1000 messages, back it up, trim it to its 800 most recent messages
(slice(-800), with 800 = floor(1000 * 0.8)) and log the trim as a non-fatal
error event; then check the global quota (byte measurements are the b1/b2
parameters) and run cleanupOldSessions and, if still over budget,
performEmergencyCleanup. -/
def checkStorageLimitsAndCleanup (sessionData : Session) (now b1 b2 : Int) (st : Store) :
    (Session × Store) × List StorageEvent :=
  let trimStep :=
    if sessionData.messages.length > 1000 then
      let backupStep := createSessionBackup sessionData.id sessionData now st
      let trimmed := { sessionData with
        messages := sessionData.messages.drop (sessionData.messages.length - 800) }
      let logStep := logError "session_cleanup" now backupStep.1
      ((trimmed, logStep.1), backupStep.2 ++ logStep.2)
    else ((sessionData, st), ([] : List StorageEvent))
  let quotaInfo := checkStorageQuota b1
  if quotaInfo.hasSpace then (trimStep.1, trimStep.2 ++ [.quotaCheck])
  else
    let cleanupStep := cleanupOldSessions trimStep.1.2
    let quotaAfterCleanup := checkStorageQuota b2
    if quotaAfterCleanup.hasSpace then
      ((trimStep.1.1, cleanupStep.1), trimStep.2 ++ [.quotaCheck] ++ cleanupStep.2 ++ [.quotaCheck])
    else
      let emergencyStep := performEmergencyCleanup now cleanupStep.1
      ((trimStep.1.1, emergencyStep.1),
       trimStep.2 ++ [.quotaCheck] ++ cleanupStep.2 ++ [.quotaCheck] ++ emergencyStep.2)

/-- The session object saveMessageToSession works on: the stored one when
the key exists, a fresh one otherwise. -/
def lookupSession (sessionId : String) (now : Int) (st : Store) : Session :=
  match st.sessions.find? (fun p => p.1 = sessionId) with
  | some p => p.2
  | none => { id := sessionId, messages := [], createdAt := now, lastActivity := now }

/-- sessionData.messages.push(message) together with the lastActivity
update. -/
def appendMessage (sessionData : Session) (message : Message) (now : Int) : Session :=
  { sessionData with messages := sessionData.messages ++ [message], lastActivity := now }

/-- The body of saveMessageToSession after the quota precheck: read the
session (creating a fresh one when absent), validate the message (throwing
Invalid message data, which the catch block logs before rethrowing), append
it, run checkStorageLimitsAndCleanup, persist the session together with
currentSession, and create a backup when the stored message count is a
multiple of 50. -/
def saveMessageBody (sessionId : String) (message : Message) (now b3 b4 : Int) (st : Store) :
    Except String Unit × Store × List StorageEvent :=
  let sessionData := lookupSession sessionId now st
  if !(validateMessageData message.toMsgInput) then
    let logStep := logError "save_message_failed" now st
    (.error "Invalid message data", logStep.1, [.get [sessionKeyStr sessionId]] ++ logStep.2)
  else
    let updated := appendMessage sessionData message now
    let limitsStep := checkStorageLimitsAndCleanup updated now b3 b4 st
    let sess2 := limitsStep.1.1
    let st3 := { limitsStep.1.2 with
      sessions := setSession sessionId sess2 limitsStep.1.2.sessions
      currentSession := some sessionId }
    let trSet := [StorageEvent.set [sessionKeyStr sessionId, "currentSession"]]
    if sess2.messages.length % 50 = 0 then
      let backupStep := createSessionBackup sessionId sess2 now st3
      (.ok (), backupStep.1, [.get [sessionKeyStr sessionId]] ++ limitsStep.2 ++ trSet ++ backupStep.2)
    else
      (.ok (), st3, [.get [sessionKeyStr sessionId]] ++ limitsStep.2 ++ trSet)

/-- background.js saveMessageToSession: check the quota first (measurement
b1); when over budget run performEmergencyCleanup and re-check (measurement
b2), failing if still over; then run the body.  Retry wrappers around the
raw get/set are not modelled (no transient-failure oracle); quota
measurements are the b1..b4 parameters. -/
def saveMessageToSession (sessionId : String) (message : Message) (now b1 b2 b3 b4 : Int)
    (st : Store) : Except String Unit × Store × List StorageEvent :=
  let quotaCheck := checkStorageQuota b1
  if !quotaCheck.hasSpace then
    let cleanupStep := performEmergencyCleanup now st
    let quotaAfter := checkStorageQuota b2
    if !quotaAfter.hasSpace then
      let logStep := logError "save_message_failed" now cleanupStep.1
      (.error "Storage quota exceeded and cleanup failed", logStep.1,
       [.quotaCheck] ++ cleanupStep.2 ++ [.quotaCheck] ++ logStep.2)
    else
      let bodyStep := saveMessageBody sessionId message now b3 b4 cleanupStep.1
      (bodyStep.1, bodyStep.2.1, [.quotaCheck] ++ cleanupStep.2 ++ [.quotaCheck] ++ bodyStep.2.2)
  else
    let bodyStep := saveMessageBody sessionId message now b3 b4 st
    (bodyStep.1, bodyStep.2.1, [.quotaCheck] ++ bodyStep.2.2)

/-- The payload of a saveMessage request: the content value as received
(arbitrary), the type field (a string when present; non-string type values
are not modelled), and the url/tabId metadata. -/
structure SaveRequest where
  content : JSVal
  rtype : Option String
  url : Option String
  tabId : Option Int
deriving DecidableEq, Repr

/-- The response handleSaveMessage sends. -/
inductive SaveResponse where
  | ok (messageId sessionId : String)
  | err (msg : String)
deriving DecidableEq, Repr

/-- background.js handleSaveMessage: reject a missing request or falsy
content with Invalid message data; read currentSession (generating a fresh
id when unset); build the message with trimmed content, the current time,
the requested type (defaulting to user) and the url/tabId metadata; then
save it with saveMessageToSession, returning its error message on failure.  A
truthy non-string content has no trim method: the TypeError raised there is
caught and its message returned. -/
def handleSaveMessage (messageData : Option SaveRequest) (genMsgId genSessId : String)
    (now b1 b2 b3 b4 : Int) (st : Store) : SaveResponse × Store × List StorageEvent :=
  match messageData with
  | none => (.err "Invalid message data", st, [])
  | some r =>
    if !r.content.truthy then (.err "Invalid message data", st, [])
    else
      let sessionId :=
        match st.currentSession with
        | some s => if s = "" then genSessId else s
        | none => genSessId
      match r.content with
      | .str c =>
        let message : Message :=
          { id := genMsgId
            content := trimString c
            timestamp := now
            type := (match r.rtype with
              | some t => if t = "" then "user" else t
              | none => "user")
            metadata := some { url := r.url, tabId := r.tabId } }
        let saveStep := saveMessageToSession sessionId message now b1 b2 b3 b4 st
        match saveStep.1 with
        | .ok _ => (.ok genMsgId sessionId, saveStep.2.1, [.get ["currentSession"]] ++ saveStep.2.2)
        | .error e => (.err e, saveStep.2.1, [.get ["currentSession"]] ++ saveStep.2.2)
      | _ => (.err "messageData.content.trim is not a function", st, [.get ["currentSession"]])

/-- background.js handleSetSidebarState: write the global sidebarVisible
flag, then (when the sender has a truthy tab id) the per-tab state.  No
quota check happens on this path.  The request's visible field is modelled
as a boolean and url as a string (the source defaults them with || false
and the empty string); the request timestamp defaults to Date.now() when
falsy. -/
def handleSetSidebarState (visible : Bool) (url : String) (tsReq : Option Int)
    (tabId : Option Int) (now : Int) (st : Store) : Store × List StorageEvent :=
  let timestamp := match tsReq with | some t => if t = 0 then now else t | none => now
  let st1 := { st with sidebarVisible := some visible }
  match tabId with
  | some t =>
    if t = 0 then (st1, [.set ["sidebarVisible"]])
    else
      ({ st1 with tabStates :=
          setTabState t { visible := visible, url := url, lastUpdate := timestamp } st1.tabStates },
       [.set ["sidebarVisible"], .set [tabStateKeyStr t]])
  | none => (st1, [.set ["sidebarVisible"]])

/-- The raw-session view of a stored backup object (the extra
backupCreatedAt and version fields are not read by the validator or by the
callers of recovery). -/
def Backup.toRawSession (b : Backup) : RawSession :=
  { id := .str b.id, createdAt := .num b.createdAt, lastActivity := .num b.lastActivity,
    messages := .array (b.messages.map CompressedMessage.toMsgInput) }

/-- The salvage step of recoverCorruptedSession: build a fresh shell around
whatever individually valid messages the corrupted value holds.  On a
null/undefined input the field access raises and the catch block returns the
minimal shell; on any other primitive the field reads yield undefined,
giving the same shell. -/
def recoverSalvage (sessionId : String) (corruptedData : SessionInput) (now : Int) : RawSession :=
  match corruptedData with
  | .prim _ =>
    { id := .str sessionId, createdAt := .num now, lastActivity := .num now,
      messages := .array [] }
  | .obj s =>
    { id := .str sessionId
      createdAt := if s.createdAt.truthy then s.createdAt else .num now
      lastActivity := .num now
      messages := .array (match s.messages with
        | .array xs => xs.filter validateMessageData
        | .notArray _ => []) }

/-- background.js recoverCorruptedSession: restore the most recent backup
when one exists and passes validation, otherwise salvage the individually
valid messages of the corrupted value into a fresh shell.  The function
never throws: every branch, including the internal TypeError on null input,
returns a session object.  (The source also persists the recovered object
under the session key and logs a recovery error event; those writes are not
read by any claim about the returned value and are not modelled here.) -/
def recoverCorruptedSession (sessionId : String) (corruptedData : SessionInput) (now : Int)
    (st : Store) : RawSession :=
  match (restoreSessionFromBackup sessionId st).1 with
  | some b =>
    if validateSessionData b.toSessionInput then b.toRawSession
    else recoverSalvage sessionId corruptedData now
  | none => recoverSalvage sessionId corruptedData now

theorem trimString_of_all_whitespace (s : String) (h : s.data.all Char.isWhitespace) :
    trimString s = "" := by
  have h1 : s.data.dropWhile Char.isWhitespace = [] :=
    List.dropWhile_eq_nil_iff.mpr (fun x hx => List.all_eq_true.mp h x hx)
  simp only [trimString, h1, List.rdropWhile_nil]

theorem trimString_head_not_whitespace (s : String) (c : Char)
    (hc : (trimString s).data.head? = some c) : c.isWhitespace = false := by
  have hpre : (List.rdropWhile Char.isWhitespace
      (s.data.dropWhile Char.isWhitespace)).IsPrefix (s.data.dropWhile Char.isWhitespace) :=
    List.rdropWhile_prefix Char.isWhitespace (s.data.dropWhile Char.isWhitespace)
  obtain ⟨t, ht⟩ := hpre
  have hc2 : (s.data.dropWhile Char.isWhitespace).head? = some c := by
    rw [← ht]
    have hdata : (trimString s).data
        = List.rdropWhile Char.isWhitespace (s.data.dropWhile Char.isWhitespace) := rfl
    rw [hdata] at hc
    cases hb : List.rdropWhile Char.isWhitespace (s.data.dropWhile Char.isWhitespace) with
    | nil => rw [hb] at hc; simp at hc
    | cons b bs =>
      rw [hb] at hc
      simp at hc
      simp [hc]
  have hmatch := List.head?_dropWhile_not Char.isWhitespace s.data
  rw [hc2] at hmatch
  exact hmatch

theorem trimString_getLast_not_whitespace (s : String) (c : Char)
    (hc : (trimString s).data.getLast? = some c) : c.isWhitespace = false := by
  have hdata : (trimString s).data
      = List.rdropWhile Char.isWhitespace (s.data.dropWhile Char.isWhitespace) := rfl
  rw [hdata] at hc
  have hne : List.rdropWhile Char.isWhitespace (s.data.dropWhile Char.isWhitespace) ≠ [] := by
    intro h
    rw [h] at hc
    simp at hc
  have hlast := List.rdropWhile_last_not
    (p := Char.isWhitespace) (l := s.data.dropWhile Char.isWhitespace) hne
  have hgl : (List.rdropWhile Char.isWhitespace (s.data.dropWhile Char.isWhitespace)).getLast hne = c :=
    (List.getLast?_eq_getLast _ hne).symm.trans hc |> Option.some.inj
  rw [hgl] at hlast
  simpa using hlast

theorem find?_setSession (sessionId : String) (v : Session) (l : List (String × Session)) :
    (setSession sessionId v l).find? (fun p => decide (p.1 = sessionId)) = some (sessionId, v) := by
  induction l with
  | nil => simp [setSession]
  | cons p rest ih =>
    obtain ⟨k, w⟩ := p
    by_cases hk : k = sessionId
    · subst hk
      simp [setSession]
    · simp [setSession, hk, ih]

theorem sessions_cleanupOldBackups (sessionId : String) (st : Store) :
    ((cleanupOldBackups sessionId st).1).sessions = st.sessions := by
  by_cases h : (backupsFor sessionId st).length > 3 <;> simp [cleanupOldBackups, h]

theorem sessions_createSessionBackup (sessionId : String) (sess : Session) (now : Int) (st : Store) :
    ((createSessionBackup sessionId sess now st).1).sessions = st.sessions := by
  unfold createSessionBackup
  exact sessions_cleanupOldBackups sessionId _

theorem checkStorageLimitsAndCleanup_session (sessionData : Session) (now b1 b2 : Int) (st : Store) :
    (checkStorageLimitsAndCleanup sessionData now b1 b2 st).1.1
      = { sessionData with
          messages := List.drop
            (if sessionData.messages.length > 1000 then sessionData.messages.length - 800 else 0)
            sessionData.messages } := by
  by_cases h : sessionData.messages.length > 1000 <;>
    simp only [checkStorageLimitsAndCleanup, h, if_true, if_false] <;>
    split <;>
    first
    | rfl
    | (split <;> rfl)

theorem getLast?_drop_concat (l : List α) (a : α) (k : Nat) (hk : k ≤ l.length) :
    ((l ++ [a]).drop k).getLast? = some a := by
  rw [List.drop_append_of_le_length hk, List.getLast?_concat]

theorem checkStorageLimitsAndCleanup_getLast (u : Session) (m : Message) (l : List Message)
    (hu : u.messages = l ++ [m]) (now b3 b4 : Int) (st : Store) :
    ((checkStorageLimitsAndCleanup u now b3 b4 st).1.1).messages.getLast? = some m := by
  rw [checkStorageLimitsAndCleanup_session]
  simp only
  rw [hu]
  by_cases h : (l ++ [m]).length > 1000
  · rw [if_pos h]
    refine getLast?_drop_concat l m _ ?_
    simp only [List.length_append, List.length_cons, List.length_nil] at h ⊢
    omega
  · rw [if_neg h, List.drop_zero, List.getLast?_concat]

theorem saveMessageBody_ok (sessionId : String) (message : Message) (now b3 b4 : Int) (st : Store)
    (hok : (saveMessageBody sessionId message now b3 b4 st).1 = .ok ()) :
    ∃ sess : Session,
      ((saveMessageBody sessionId message now b3 b4 st).2.1).sessions.find?
          (fun p => decide (p.1 = sessionId)) = some (sessionId, sess)
        ∧ sess.messages.getLast? = some message := by
  simp only [saveMessageBody] at hok ⊢
  by_cases hval : (!validateMessageData message.toMsgInput) = true
  · rw [if_pos hval] at hok
    exact absurd hok (by simp)
  · rw [if_neg hval] at hok ⊢
    split at hok <;> rename_i h50
    · rw [if_pos h50]
      dsimp only
      refine ⟨(checkStorageLimitsAndCleanup
        (appendMessage (lookupSession sessionId now st) message now) now b3 b4 st).1.1, ?_, ?_⟩
      · rw [sessions_createSessionBackup]
        exact find?_setSession _ _ _
      · exact checkStorageLimitsAndCleanup_getLast
          (appendMessage (lookupSession sessionId now st) message now) message
          (lookupSession sessionId now st).messages rfl now b3 b4 st
    · rw [if_neg h50]
      dsimp only
      refine ⟨(checkStorageLimitsAndCleanup
        (appendMessage (lookupSession sessionId now st) message now) now b3 b4 st).1.1, ?_, ?_⟩
      · exact find?_setSession _ _ _
      · exact checkStorageLimitsAndCleanup_getLast
          (appendMessage (lookupSession sessionId now st) message now) message
          (lookupSession sessionId now st).messages rfl now b3 b4 st

theorem saveMessageToSession_ok (sessionId : String) (message : Message)
    (now b1 b2 b3 b4 : Int) (st : Store)
    (hok : (saveMessageToSession sessionId message now b1 b2 b3 b4 st).1 = .ok ()) :
    ∃ sess : Session,
      ((saveMessageToSession sessionId message now b1 b2 b3 b4 st).2.1).sessions.find?
          (fun p => decide (p.1 = sessionId)) = some (sessionId, sess)
        ∧ sess.messages.getLast? = some message := by
  simp only [saveMessageToSession] at hok ⊢
  by_cases h1 : (!(checkStorageQuota b1).hasSpace) = true
  · rw [if_pos h1] at hok ⊢
    by_cases h2 : (!(checkStorageQuota b2).hasSpace) = true
    · rw [if_pos h2] at hok
      exact absurd hok (by simp)
    · rw [if_neg h2] at hok ⊢
      exact saveMessageBody_ok _ _ _ _ _ _ hok
  · rw [if_neg h1] at hok ⊢
    exact saveMessageBody_ok _ _ _ _ _ _ hok

theorem sessions_logError (etype : String) (now : Int) (st : Store) :
    ((logError etype now st).1).sessions = st.sessions := rfl

theorem saveMessageToSession_invalid (sessionId : String) (message : Message)
    (now b1 b2 b3 b4 : Int) (st : Store)
    (hq : b1 < STORAGE_LIMIT) (hval : validateMessageData message.toMsgInput = false) :
    (saveMessageToSession sessionId message now b1 b2 b3 b4 st).1 = .error "Invalid message data"
      ∧ ((saveMessageToSession sessionId message now b1 b2 b3 b4 st).2.1).sessions
          = st.sessions := by
  have hspace : (!(checkStorageQuota b1).hasSpace) = false := by
    simp [checkStorageQuota, hq]
  simp only [saveMessageToSession, hspace, Bool.false_eq_true, if_false]
  simp only [saveMessageBody, hval, Bool.not_false, if_true]
  exact ⟨trivial, rfl⟩

/-- C10.  handleSaveMessage persists content trimmed of leading and trailing
whitespace: on every successful save of a string content the stored session
ends with a message whose content is the trimmed request content, which
neither begins nor ends with whitespace; and a request whose content is a
non-empty all-whitespace string fails with the Invalid message data error
response (the trimmed content is empty and fails validation) with the
session store left unchanged. -/
theorem handleSaveMessage_trims_and_rejects_whitespace :
    (∀ (r : SaveRequest) (c genMsgId genSessId : String) (now b1 b2 b3 b4 : Int) (st : Store)
        (msgId sessId : String),
        r.content = .str c →
        (handleSaveMessage (some r) genMsgId genSessId now b1 b2 b3 b4 st).1 = .ok msgId sessId →
        ∃ sess : Session,
          ((handleSaveMessage (some r) genMsgId genSessId now b1 b2 b3 b4 st).2.1).sessions.find?
              (fun p => decide (p.1 = sessId)) = some (sessId, sess)
            ∧ ∃ m : Message, sess.messages.getLast? = some m ∧ m.content = trimString c
                ∧ (∀ ch : Char, m.content.data.head? = some ch → ch.isWhitespace = false)
                ∧ (∀ ch : Char, m.content.data.getLast? = some ch → ch.isWhitespace = false))
      ∧ (∀ (r : SaveRequest) (c genMsgId genSessId : String) (now b1 b2 b3 b4 : Int) (st : Store),
          r.content = .str c → c ≠ "" → c.data.all Char.isWhitespace = true →
          b1 < STORAGE_LIMIT →
          (handleSaveMessage (some r) genMsgId genSessId now b1 b2 b3 b4 st).1
              = .err "Invalid message data"
            ∧ ((handleSaveMessage (some r) genMsgId genSessId now b1 b2 b3 b4 st).2.1).sessions
                = st.sessions) := by
  constructor
  · intro r c genMsgId genSessId now b1 b2 b3 b4 st msgId sessId hc hok
    simp only [handleSaveMessage, hc] at hok ⊢
    by_cases hce : c = ""
    · rw [hce] at hok
      simp [JSVal.truthy] at hok
    · simp only [JSVal.truthy, hce, decide_False, Bool.not_false, Bool.not_true,
        Bool.false_eq_true, if_false] at hok ⊢
      cases hsave : (saveMessageToSession
          (match st.currentSession with
           | some s => if s = "" then genSessId else s
           | none => genSessId)
          { id := genMsgId, content := trimString c, timestamp := now,
            type := (match r.rtype with
              | some t => if t = "" then "user" else t
              | none => "user"),
            metadata := some { url := r.url, tabId := r.tabId } }
          now b1 b2 b3 b4 st).1 with
      | error e =>
        rw [hsave] at hok
        simp at hok
      | ok u =>
        rw [hsave] at hok
        simp only [SaveResponse.ok.injEq] at hok
        obtain ⟨hmsg, hsess⟩ := hok
        simp only [hsave, ← hsess]
        obtain ⟨sess, hfind, hlast⟩ := saveMessageToSession_ok _ _ now b1 b2 b3 b4 st
          (by rw [hsave])
        refine ⟨sess, hfind, ?_⟩
        refine ⟨_, hlast, rfl, ?_, ?_⟩
        · exact fun ch hch => trimString_head_not_whitespace c ch hch
        · exact fun ch hch => trimString_getLast_not_whitespace c ch hch
  · intro r c genMsgId genSessId now b1 b2 b3 b4 st hc hce hws hq
    simp only [handleSaveMessage, hc]
    simp only [JSVal.truthy, hce, decide_False, Bool.not_false, Bool.not_true,
      Bool.false_eq_true, if_false]
    have hval : validateMessageData (Message.toMsgInput
        { id := genMsgId, content := trimString c, timestamp := now,
          type := (match r.rtype with
            | some t => if t = "" then "user" else t
            | none => "user"),
          metadata := some { url := r.url, tabId := r.tabId } }) = false := by
      rw [trimString_of_all_whitespace c hws]
      simp [validateMessageData, Message.toMsgInput, JSVal.truthy]
    have hinv := saveMessageToSession_invalid
      (match st.currentSession with
       | some s => if s = "" then genSessId else s
       | none => genSessId)
      { id := genMsgId, content := trimString c, timestamp := now,
        type := (match r.rtype with
          | some t => if t = "" then "user" else t
          | none => "user"),
        metadata := some { url := r.url, tabId := r.tabId } }
      now b1 b2 b3 b4 st hq hval
    rw [hinv.1]
    exact ⟨rfl, hinv.2⟩

theorem paginateMessages_spec_witness :
    0 < 1
      ∧ ((paginateMessages [] 0 1).messages
          = (((sortByKeyDesc (fun m => m.timestamp) []).drop 0).take 1).reverse
        ∧ (paginateMessages [] 0 1).messages.Pairwise
            (fun a b => a.timestamp ≤ b.timestamp)
        ∧ (paginateMessages [] 0 1).total = ([] : List Message).length
        ∧ ((paginateMessages [] 0 1).hasMore = true ↔ 0 + 1 < ([] : List Message).length)
        ∧ ((getMessagesFromSessionPaginated "S2" 0 50 scenarioStore).1.messages
              = scenarioMessages.drop 70
            ∧ (getMessagesFromSessionPaginated "S2" 0 50 scenarioStore).1.hasMore = true
            ∧ (getMessagesFromSessionPaginated "S2" 0 50 scenarioStore).1.total = 120)) :=
  ⟨by decide, paginateMessages_spec [] 0 1 (by decide)⟩


theorem setBackup_of_fresh (sessionId : String) (ts : Int) (b : Backup) (l : List BackupEntry)
    (hfresh : ∀ e ∈ l, ¬(e.sessionId = sessionId ∧ e.ts = ts)) :
    setBackup sessionId ts b l = l ++ [{ sessionId := sessionId, ts := ts, data := b }] := by
  induction l with
  | nil => rfl
  | cons e rest ih =>
    rw [setBackup]
    rw [if_neg (hfresh e (by simp))]
    rw [ih (fun x hx => hfresh x (by simp [hx]))]
    simp

theorem sortByKeyDesc_head_of_max (key : α → Int) (l : List α) (x : α) (hx : x ∈ l)
    (hmax : ∀ y ∈ l, y ≠ x → key y < key x) :
    ∃ t, sortByKeyDesc key l = x :: t := by
  have hperm := perm_sortByKeyDesc key l
  have hmem : x ∈ sortByKeyDesc key l := hperm.mem_iff.mpr hx
  cases hsort : sortByKeyDesc key l with
  | nil => rw [hsort] at hmem; simp at hmem
  | cons h t =>
    refine ⟨t, ?_⟩
    have hh : h ∈ l := hperm.subset (by simp [hsort])
    rcases eq_or_ne h x with rfl | hne
    · rfl
    · exfalso
      rw [hsort] at hmem
      have hxt : x ∈ t := by
        rcases List.mem_cons.mp hmem with h1 | h1
        · exact absurd h1.symm hne
        · exact h1
      have hpw := pairwise_sortByKeyDesc key l
      rw [hsort] at hpw
      have hle : key x ≤ key h := (List.pairwise_cons.mp hpw).1 x hxt
      have hlt : key h < key x := hmax h hh hne
      omega

theorem mem_backups_cleanupOldBackups (sessionId : String) (st : Store) (e : BackupEntry)
    (he : e ∈ ((cleanupOldBackups sessionId st).1).backups) : e ∈ st.backups := by
  by_cases h : (backupsFor sessionId st).length > 3 <;>
    simp only [cleanupOldBackups, h, if_true, if_false] at he
  · exact List.mem_of_mem_filter he
  · exact he

theorem backupsFor_cleanupOldBackups_subset (sessionId : String) (st : Store) (y : BackupEntry)
    (hy : y ∈ backupsFor sessionId ((cleanupOldBackups sessionId st).1)) :
    y ∈ backupsFor sessionId st := by
  have h1 := List.mem_filter.mp hy
  exact List.mem_filter.mpr ⟨mem_backups_cleanupOldBackups sessionId st y h1.1, h1.2⟩

theorem mem_cleanupOldBackups_keep (sessionId : String) (st : Store) (x : BackupEntry)
    (hmem : x ∈ backupsFor sessionId st)
    (hmax : ∀ y ∈ backupsFor sessionId st, y ≠ x → y.ts < x.ts)
    (hcount : List.count x (backupsFor sessionId st) = 1) :
    x ∈ backupsFor sessionId ((cleanupOldBackups sessionId st).1) := by
  obtain ⟨t, ht⟩ := sortByKeyDesc_head_of_max (fun e => e.ts) _ _ hmem
    (fun y hy hne => hmax y hy hne)
  by_cases hbig : (backupsFor sessionId st).length > 3
  · simp only [cleanupOldBackups, hbig, if_true]
    simp only [backupsFor] at hmem ⊢
    rw [List.filter_filter]
    rw [List.mem_filter]
    have hpred : decide (x.sessionId = sessionId) = true := (List.mem_filter.mp hmem).2
    refine ⟨(List.mem_filter.mp hmem).1, ?_⟩
    rw [Bool.and_eq_true]
    refine ⟨hpred, ?_⟩
    -- the key of x is not among the removed keys
    rw [Bool.not_eq_eq_eq_not, Bool.not_true, ← Bool.not_eq_true]
    intro hcon
    rw [List.contains_iff_exists_mem_beq] at hcon
    obtain ⟨k, hk, hbeq⟩ := hcon
    have hkx : k = (x.sessionId, x.ts) := (eq_of_beq hbeq).symm
    subst hkx
    obtain ⟨e, he, hkey⟩ := List.mem_map.mp hk
    have hxnott : x ∉ t := by
      have hcount2 : List.count x (sortByKeyDesc (fun e => e.ts)
          (backupsFor sessionId st)) = 1 := by
        rw [(perm_sortByKeyDesc _ _).count_eq]
        exact hcount
      rw [ht, List.count_cons_self] at hcount2
      exact List.count_eq_zero.mp (by omega)
    have hemem : e ∈ x :: t := by
      rw [← ht]
      exact (perm_sortByKeyDesc _ _).symm.subset
        ((perm_sortByKeyDesc _ _).subset (List.mem_of_mem_drop he))
    rcases eq_or_ne e x with rfl | hne
    · -- x itself dropped: but x is the head, and occurs once
      have he2 : e ∈ List.drop 3 (sortByKeyDesc (fun e => e.ts)
          (backupsFor sessionId st)) := he
      rw [ht] at he2
      have hint : e ∈ t := List.mem_of_mem_drop (by simpa using he2)
      exact hxnott hint
    · -- an entry with the same key but a smaller timestamp: impossible
      have hets : e.ts = x.ts := congrArg Prod.snd hkey
      have hein : e ∈ backupsFor sessionId st :=
        (perm_sortByKeyDesc _ _).subset (List.mem_of_mem_drop he)
      have := hmax e hein hne
      omega
  · simp only [cleanupOldBackups, hbig, if_false]
    exact hmem

theorem backupsFor_setBackup_fresh (sessionId : String) (b : Backup) (now : Int) (st : Store)
    (hfresh : ∀ e ∈ backupsFor sessionId st, e.ts < now) :
    backupsFor sessionId { st with backups := setBackup sessionId now b st.backups }
      = backupsFor sessionId st
          ++ [{ sessionId := sessionId, ts := now, data := b }] := by
  have hfresh2 : ∀ e ∈ st.backups, ¬(e.sessionId = sessionId ∧ e.ts = now) := by
    intro e he hcon
    have hmem : e ∈ backupsFor sessionId st := by
      simp [backupsFor, List.mem_filter, he, hcon.1]
    have := hfresh e hmem
    omega
  have hstored : setBackup sessionId now b st.backups
      = st.backups ++ [{ sessionId := sessionId, ts := now, data := b }] :=
    setBackup_of_fresh _ _ _ _ hfresh2
  simp only [backupsFor, hstored, List.filter_append]
  congr 1
  simp

theorem backupsFor_createSessionBackup_target (sessionId : String) (sess : Session) (now : Int)
    (st : Store) (hfresh : ∀ e ∈ backupsFor sessionId st, e.ts < now) :
    ({ sessionId := sessionId, ts := now, data := mkBackup sessionId sess now } : BackupEntry)
        ∈ backupsFor sessionId ((createSessionBackup sessionId sess now st).1)
      ∧ ∀ y ∈ backupsFor sessionId ((createSessionBackup sessionId sess now st).1),
          y ≠ ({ sessionId := sessionId, ts := now, data := mkBackup sessionId sess now } : BackupEntry)
            → y.ts < now := by
  have hcreate : (createSessionBackup sessionId sess now st).1
      = (cleanupOldBackups sessionId
          { st with backups := setBackup sessionId now (mkBackup sessionId sess now) st.backups }).1 := rfl
  have hmatching := backupsFor_setBackup_fresh sessionId (mkBackup sessionId sess now) now st hfresh
  have hxnotbf : ({ sessionId := sessionId, ts := now, data := mkBackup sessionId sess now } : BackupEntry)
      ∉ backupsFor sessionId st := by
    intro hcon
    have := hfresh _ hcon
    simp at this
  constructor
  · rw [hcreate]
    apply mem_cleanupOldBackups_keep
    · rw [hmatching]; simp
    · intro y hy hne
      rw [hmatching] at hy
      rcases List.mem_append.mp hy with h1 | h1
      · exact hfresh y h1
      · exact absurd (by simpa using h1) hne
    · rw [hmatching, List.count_append, List.count_eq_zero.mpr hxnotbf]
      simp
  · intro y hy hne
    rw [hcreate] at hy
    have hy2 := backupsFor_cleanupOldBackups_subset _ _ _ hy
    rw [hmatching] at hy2
    rcases List.mem_append.mp hy2 with h1 | h1
    · exact hfresh y h1
    · exact absurd (by simp at h1; exact h1) hne

/-- C5.  Restoring immediately after creating a backup returns exactly the
backup just written: a session whose message sequence has the same length as
the original and whose messages agree with the originals on id, content,
timestamp and type, with only metadata dropped.  The freshness hypothesis
says the backup is created strictly after every existing backup of the
session (the source keys backups by Date.now()). -/
theorem backup_restore_roundtrip (sessionId : String) (sess : Session) (now : Int) (st : Store)
    (hfresh : ∀ e ∈ backupsFor sessionId st, e.ts < now) :
    (restoreSessionFromBackup sessionId ((createSessionBackup sessionId sess now st).1)).1
        = some (mkBackup sessionId sess now)
      ∧ (mkBackup sessionId sess now).messages.length = sess.messages.length
      ∧ List.Forall₂ (fun (c : CompressedMessage) (m : Message) =>
            c.id = m.id ∧ c.content = m.content ∧ c.timestamp = m.timestamp ∧ c.type = m.type)
          (mkBackup sessionId sess now).messages sess.messages := by
  obtain ⟨hmem, hmax⟩ := backupsFor_createSessionBackup_target sessionId sess now st hfresh
  refine ⟨?_, by simp [mkBackup], ?_⟩
  · obtain ⟨t, ht⟩ := sortByKeyDesc_head_of_max (fun e => e.ts) _ _ hmem
      (by
        intro y hy hne
        have h2 := hmax y hy hne
        simpa using h2)
    simp only [restoreSessionFromBackup, ht]
  · simp only [mkBackup]
    induction sess.messages with
    | nil => simp
    | cons m rest ih => simp [compressMessage, ih]

/-- A store with nothing in it, used by concrete witnesses. -/
def emptyStore : Store :=
  { sessions := [], backups := [], tabStates := [], errors := [],
    sidebarVisible := none, currentSession := none }

/-- A one-message session used by concrete witnesses. -/
def sampleSession : Session :=
  { id := "s1"
    messages := [{ id := "m1", content := "hi", timestamp := 5, type := "user",
                   metadata := some { url := some "u", tabId := some 7 } }]
    createdAt := 1
    lastActivity := 2 }

theorem backup_restore_roundtrip_witness :
    (∀ e ∈ backupsFor "s1" emptyStore, e.ts < 10)
      ∧ ((restoreSessionFromBackup "s1" ((createSessionBackup "s1" sampleSession 10 emptyStore).1)).1
            = some (mkBackup "s1" sampleSession 10)
          ∧ (mkBackup "s1" sampleSession 10).messages.length = sampleSession.messages.length
          ∧ List.Forall₂ (fun (c : CompressedMessage) (m : Message) =>
                c.id = m.id ∧ c.content = m.content ∧ c.timestamp = m.timestamp ∧ c.type = m.type)
              (mkBackup "s1" sampleSession 10).messages sampleSession.messages) :=
  ⟨by decide, backup_restore_roundtrip "s1" sampleSession 10 emptyStore (by decide)⟩

/-- Scans a trace left to right: true when every set event is preceded by an
earlier quotaCheck (the seen flag carries whether a quota check happened
yet). -/
def writesAfterQuotaCheck : Bool → List StorageEvent → Bool
  | _, [] => true
  | _, .quotaCheck :: tr => writesAfterQuotaCheck true tr
  | seen, .set _ :: tr => seen && writesAfterQuotaCheck seen tr
  | seen, .get _ :: tr => writesAfterQuotaCheck seen tr
  | seen, .remove _ :: tr => writesAfterQuotaCheck seen tr

theorem writesAfterQuotaCheck_of_seen (tr : List StorageEvent) :
    writesAfterQuotaCheck true tr = true := by
  induction tr with
  | nil => rfl
  | cons e rest ih => cases e <;> simp [writesAfterQuotaCheck, ih]

/-- C9 (amended).  saveMessageToSession checks the storage quota before
touching the store: its event trace opens with the quotaCheck of
checkStorageQuota, so every write it performs is preceded by a quota
check. -/
theorem saveMessageToSession_quota_checked_first (sessionId : String) (message : Message)
    (now b1 b2 b3 b4 : Int) (st : Store) :
    writesAfterQuotaCheck false
        (saveMessageToSession sessionId message now b1 b2 b3 b4 st).2.2 = true := by
  simp only [saveMessageToSession]
  by_cases h1 : (!(checkStorageQuota b1).hasSpace) = true
  · rw [if_pos h1]
    by_cases h2 : (!(checkStorageQuota b2).hasSpace) = true
    · rw [if_pos h2]
      dsimp only
      rw [List.singleton_append]
      exact writesAfterQuotaCheck_of_seen _
    · rw [if_neg h2]
      dsimp only
      rw [List.singleton_append]
      exact writesAfterQuotaCheck_of_seen _
  · rw [if_neg h1]
    dsimp only
    rw [List.singleton_append]
    exact writesAfterQuotaCheck_of_seen _

/-- C9 counterexample.  handleSetSidebarState writes the sidebarVisible flag
and the per-tab state with no quota check anywhere in its trace, so it is a
write path of the storage manager that does not check the quota first. -/
theorem handleSetSidebarState_writes_without_quota_check :
    writesAfterQuotaCheck false
        (handleSetSidebarState true "https://a" (some 5) (some 7) 9 emptyStore).2 = false
      ∧ StorageEvent.set ["sidebarVisible"]
          ∈ (handleSetSidebarState true "https://a" (some 5) (some 7) 9 emptyStore).2
      ∧ StorageEvent.quotaCheck
          ∉ (handleSetSidebarState true "https://a" (some 5) (some 7) 9 emptyStore).2 := by
  decide

/-- C4 counterexample.  A corrupted session whose createdAt field is a
truthy non-number (here the string bad) and for which no backup exists: the
salvage path of recoverCorruptedSession copies the corrupted createdAt into
the recovered object (corruptedData.createdAt || Date.now() keeps any truthy
value), so the returned session fails validateSessionData. -/
theorem recoverCorruptedSession_counterexample :
    validateSessionData (.obj (recoverCorruptedSession "s1"
        (.obj { id := .str "s1", createdAt := .str "bad", lastActivity := .num 1,
                messages := .array [] }) 100 emptyStore)) = false := by
  decide

/-- The corrupted values whose createdAt the salvage path renders numeric:
either the field is falsy (so Date.now() is used) or it is already a
number.  Primitive corrupted values never contribute a createdAt. -/
def createdAtRecoverable : SessionInput → Prop
  | .prim _ => True
  | .obj s => s.createdAt.truthy = false ∨ s.createdAt.isNumber = true

/-- C4 (amended).  For every non-empty session id and every corrupted value
whose createdAt field is falsy or numeric, recoverCorruptedSession returns a
structurally valid session: the backup path returns a validated backup, and
the salvage path builds a fresh shell holding exactly the individually valid
messages.  (The JavaScript function never throws: its catch-all returns the
minimal shell, which the total Lean model renders by returning a value on
every input.)  Without the createdAt condition the salvage path copies a
truthy non-numeric createdAt verbatim and the result fails validation, and
with an empty session id the recovered id fails the truthiness check. -/
theorem recoverCorruptedSession_valid (sessionId : String) (corruptedData : SessionInput)
    (now : Int) (st : Store)
    (hid : sessionId ≠ "")
    (hcr : createdAtRecoverable corruptedData) :
    validateSessionData (.obj (recoverCorruptedSession sessionId corruptedData now st)) = true := by
  have hsalvage : validateSessionData (.obj (recoverSalvage sessionId corruptedData now)) = true := by
    cases corruptedData with
    | prim v =>
      simp [recoverSalvage, validateSessionData, JSVal.truthy, JSVal.isNumber, hid]
    | obj s =>
      have hnum : (if s.createdAt.truthy = true then s.createdAt else JSVal.num now).isNumber
          = true := by
        rcases hcr with hcr | hcr
        · rw [if_neg (by simp [hcr])]
          rfl
        · by_cases ht : s.createdAt.truthy = true
          · rw [if_pos ht]
            exact hcr
          · rw [if_neg ht]
            rfl
      cases hms : s.messages with
      | notArray v =>
        simp only [recoverSalvage, hms, validateSessionData]
        simp only [hnum]
        simp [JSVal.truthy, JSVal.isNumber, hid]
      | array xs =>
        simp only [recoverSalvage, hms, validateSessionData]
        simp only [hnum]
        simp [JSVal.truthy, JSVal.isNumber, hid, List.all_eq_true, List.mem_filter]
  rw [recoverCorruptedSession]
  cases hres : (restoreSessionFromBackup sessionId st).1 with
  | none => exact hsalvage
  | some b =>
    dsimp only
    by_cases hval : validateSessionData b.toSessionInput = true
    · rw [if_pos hval]
      exact hval
    · rw [if_neg hval]
      exact hsalvage

/-- A corrupted session value used by the recovery witness: wrong-typed id
and lastActivity, numeric createdAt, one valid and one invalid message. -/
def sampleCorrupted : SessionInput :=
  .obj
    { id := .num 0
      createdAt := .num 3
      lastActivity := .str "x"
      messages := .array
        [.obj { id := .str "m1", content := .str "hi", timestamp := .num 5 }, .prim .null] }

theorem recoverCorruptedSession_valid_witness :
    ("s1" : String) ≠ ""
      ∧ createdAtRecoverable sampleCorrupted
      ∧ validateSessionData
          (.obj (recoverCorruptedSession "s1" sampleCorrupted 100 emptyStore)) = true :=
  ⟨by decide, Or.inr rfl,
    recoverCorruptedSession_valid "s1" sampleCorrupted 100 emptyStore (by decide) (Or.inr rfl)⟩

theorem length_sortByKeyAsc (key : α → Int) (l : List α) :
    (sortByKeyAsc key l).length = l.length :=
  (perm_sortByKeyAsc key l).length_eq

/-- A store holding 11 sessions with lastActivity 1..11 and no backups. -/
def elevenStore : Store :=
  { sessions := (List.range 11).map (fun k =>
      ("s" ++ toString (k + 1),
       { id := "s" ++ toString (k + 1), messages := [], createdAt := 1,
         lastActivity := (k : Int) + 1 }))
    backups := []
    tabStates := []
    errors := []
    sidebarVisible := none
    currentSession := none }

/-- C3 counterexample.  Over a store of 11 sessions, cleanupOldSessions
evicts the least recently active session s1, creates no backup at all, and
restoreFromBackup cannot retrieve the evicted session. -/
theorem cleanupOldSessions_no_backup_counterexample :
    elevenStore.sessions.length = 11
      ∧ ((cleanupOldSessions elevenStore).1).sessions.find? (fun p => decide (p.1 = "s1")) = none
      ∧ (restoreSessionFromBackup "s1" ((cleanupOldSessions elevenStore).1)).1 = none
      ∧ ((cleanupOldSessions elevenStore).1).backups = [] := by
  decide

/-- C3 (amended).  When cleanupOldSessions runs over a store holding more
than 10 sessions (all with positive, pairwise distinct lastActivity and
distinct keys), exactly 10 sessions remain, every survivor is one of the
stored sessions, every evicted session is strictly less recently active
than every survivor, and the backup store is untouched: evicted sessions
get no backup, so restoreFromBackup can retrieve one only if a backup
already existed. -/
theorem cleanupOldSessions_spec (st : Store)
    (hpos : ∀ p ∈ st.sessions, 0 < p.2.lastActivity)
    (hkeys : (st.sessions.map (fun p => p.1)).Nodup)
    (hdist : (st.sessions.map (fun p => p.2.lastActivity)).Nodup)
    (hlen : st.sessions.length > 10) :
    ((cleanupOldSessions st).1).sessions.length = 10
      ∧ (∀ p ∈ ((cleanupOldSessions st).1).sessions, p ∈ st.sessions)
      ∧ (∀ p ∈ st.sessions, p ∉ ((cleanupOldSessions st).1).sessions →
          ∀ q ∈ ((cleanupOldSessions st).1).sessions, p.2.lastActivity < q.2.lastActivity)
      ∧ ((cleanupOldSessions st).1).backups = st.backups := by
  have hfil : st.sessions.filter (fun p => !(decide (p.2.lastActivity = 0))) = st.sessions := by
    rw [List.filter_eq_self]
    intro a ha
    have h2 := hpos a ha
    simp only [Bool.not_eq_true', decide_eq_false_iff_not]
    omega
  have hsortlen : (sortByKeyAsc (fun p => p.2.lastActivity) st.sessions).length
      = st.sessions.length := length_sortByKeyAsc _ _
  have hcond2 : (sortByKeyAsc (fun p => p.2.lastActivity) st.sessions).length > 10 := by
    rw [hsortlen]
    exact hlen
  have hunfold : (cleanupOldSessions st).1
      = { st with sessions := st.sessions.filter (fun p =>
          !((((sortByKeyAsc (fun p => p.2.lastActivity) st.sessions).take
              ((sortByKeyAsc (fun p => p.2.lastActivity) st.sessions).length - 10)).map
                (fun p => p.1)).contains p.1)) } := by
    simp only [cleanupOldSessions, hfil]
    rw [if_pos hcond2]
  have hperm : (sortByKeyAsc (fun p => p.2.lastActivity) st.sessions).Perm st.sessions :=
    perm_sortByKeyAsc _ _
  -- strict ascending sortedness
  have hasc := pairwise_sortByKeyAsc (fun p => p.2.lastActivity) st.sessions
  have hnodup : (sortByKeyAsc (fun p => p.2.lastActivity) st.sessions).Pairwise
      (fun p q => p.2.lastActivity ≠ q.2.lastActivity) := by
    have h1 : ((sortByKeyAsc (fun p => p.2.lastActivity) st.sessions).map
        (fun p => p.2.lastActivity)).Nodup :=
      ((hperm.map (fun p => p.2.lastActivity)).nodup_iff).mpr hdist
    simp only [List.Nodup, List.pairwise_map] at h1
    exact h1
  have hstrict : (sortByKeyAsc (fun p => p.2.lastActivity) st.sessions).Pairwise
      (fun p q => p.2.lastActivity < q.2.lastActivity) :=
    (hasc.and hnodup).imp fun h => lt_of_le_of_ne h.1 h.2
  -- the sorted list splits into the removed prefix and the kept suffix
  set sorted : List (String × Session) :=
    sortByKeyAsc (fun p => p.2.lastActivity) st.sessions with hsorted
  set toRemove := sorted.take (sorted.length - 10) with htoRemove
  set kept := sorted.drop (sorted.length - 10) with hkept
  have hsplit : toRemove ++ kept = sorted := List.take_append_drop _ _
  have hkeysnodup : (sorted.map (fun p => p.1)).Nodup :=
    ((hperm.map (fun p => p.1)).nodup_iff).mpr hkeys
  -- keys of kept entries are never removed, keys of removed entries always are
  have hkeptpred : ∀ p ∈ kept,
      (!((toRemove.map (fun p => p.1)).contains p.1)) = true := by
    intro p hp
    rw [Bool.not_eq_eq_eq_not, Bool.not_true, ← Bool.not_eq_true]
    intro hcon
    rw [List.contains_iff_exists_mem_beq] at hcon
    obtain ⟨k, hk, hbeq⟩ := hcon
    have hkp : k = p.1 := (eq_of_beq hbeq).symm
    subst hkp
    obtain ⟨q, hq, hq1⟩ := List.mem_map.mp hk
    have hdisj : (toRemove.map (fun p => p.1)).Disjoint (kept.map (fun p => p.1)) := by
      have h2 : ((toRemove ++ kept).map (fun p => p.1)).Nodup := by
        rw [hsplit]
        exact hkeysnodup
      rw [List.map_append] at h2
      exact List.disjoint_of_nodup_append h2
    exact hdisj hk (List.mem_map_of_mem (fun p => p.1) hp)
  have hrempred : ∀ p ∈ toRemove,
      (!((toRemove.map (fun p => p.1)).contains p.1)) = false := by
    intro p hp
    have hcontains : (toRemove.map (fun p => p.1)).contains p.1 = true := by
      rw [List.contains_iff_exists_mem_beq]
      exact ⟨p.1, List.mem_map_of_mem (fun p => p.1) hp, by simp⟩
    rw [hcontains]
    rfl
  -- the result sessions are a permutation of the kept suffix
  have hresperm : (((cleanupOldSessions st).1).sessions).Perm kept := by
    rw [hunfold]
    have h3 : (st.sessions.filter
        (fun p => !((toRemove.map (fun p => p.1)).contains p.1))).Perm
          (sorted.filter (fun p => !((toRemove.map (fun p => p.1)).contains p.1))) :=
      (hperm.symm).filter _
    have h4 : sorted.filter (fun p => !((toRemove.map (fun p => p.1)).contains p.1))
        = kept := by
      rw [← hsplit, List.filter_append]
      rw [List.filter_eq_nil_iff.mpr (fun a ha => by rw [hrempred a ha]; simp)]
      rw [List.filter_eq_self.mpr hkeptpred]
      simp
    rw [← h4]
    exact h3
  have hkeptlen : kept.length = 10 := by
    rw [hkept, List.length_drop]
    omega
  refine ⟨?_, ?_, ?_, ?_⟩
  · rw [hresperm.length_eq, hkeptlen]
  · intro p hp
    have := hresperm.subset hp
    exact hperm.subset (by rw [← hsplit]; exact List.mem_append_right _ this)
  · intro p hp hpnot q hq
    have hqkept : q ∈ kept := hresperm.subset hq
    have hpsorted : p ∈ sorted := hperm.symm.subset hp
    have hptr : p ∈ toRemove := by
      rw [← hsplit] at hpsorted
      rcases List.mem_append.mp hpsorted with h1 | h1
      · exact h1
      · exact absurd (hresperm.symm.subset h1) hpnot
    have := List.pairwise_append.mp (by rw [hsplit]; exact hstrict)
    exact this.2.2 p hptr q hqkept
  · rw [hunfold]

theorem cleanupOldSessions_spec_witness :
    (∀ p ∈ elevenStore.sessions, 0 < p.2.lastActivity)
      ∧ (elevenStore.sessions.map (fun p => p.1)).Nodup
      ∧ (elevenStore.sessions.map (fun p => p.2.lastActivity)).Nodup
      ∧ elevenStore.sessions.length > 10
      ∧ (((cleanupOldSessions elevenStore).1).sessions.length = 10
        ∧ (∀ p ∈ ((cleanupOldSessions elevenStore).1).sessions, p ∈ elevenStore.sessions)
        ∧ (∀ p ∈ elevenStore.sessions, p ∉ ((cleanupOldSessions elevenStore).1).sessions →
            ∀ q ∈ ((cleanupOldSessions elevenStore).1).sessions,
              p.2.lastActivity < q.2.lastActivity)
        ∧ ((cleanupOldSessions elevenStore).1).backups = elevenStore.backups) :=
  ⟨by decide, by decide, by decide, by decide,
    cleanupOldSessions_spec elevenStore (by decide) (by decide) (by decide) (by decide)⟩

theorem backupsFor_sessionId (sessionId : String) (st : Store) :
    ∀ e ∈ backupsFor sessionId st, e.sessionId = sessionId := by
  intro e he
  have h1 := (List.mem_filter.mp he).2
  simpa using h1

theorem filter_setBackup_ne (sid' sid : String) (hne : sid' ≠ sid) (now : Int) (b : Backup)
    (l : List BackupEntry) :
    (setBackup sid now b l).filter (fun e => decide (e.sessionId = sid'))
      = l.filter (fun e => decide (e.sessionId = sid')) := by
  induction l with
  | nil =>
    simp [setBackup, List.filter_cons, hne]
    intro hcon
    exact absurd hcon.symm hne
  | cons e rest ih =>
    rw [setBackup]
    by_cases hcond : e.sessionId = sid ∧ e.ts = now
    · rw [if_pos hcond]
      have he1 : (decide (({ sessionId := sid, ts := now, data := b } : BackupEntry).sessionId
          = sid')) = false := by
        simp
        intro hcon
        exact absurd hcon.symm hne
      have he2 : (decide (e.sessionId = sid')) = false := by
        simp [hcond.1]
        intro hcon
        exact absurd hcon.symm hne
      rw [List.filter_cons, List.filter_cons, he1, he2]
      simp
    · rw [if_neg hcond]
      rw [List.filter_cons, List.filter_cons, ih]

theorem backupsFor_cleanupOldBackups_ne (sid' sid : String) (hne : sid' ≠ sid) (st : Store) :
    backupsFor sid' ((cleanupOldBackups sid st).1) = backupsFor sid' st := by
  by_cases hbig : (backupsFor sid st).length > 3
  · simp only [cleanupOldBackups, hbig, if_true]
    simp only [backupsFor]
    rw [List.filter_comm]
    rw [List.filter_eq_self.mpr]
    intro e he
    have hsid' : e.sessionId = sid' := by
      have h1 := (List.mem_filter.mp he).2
      simpa using h1
    rw [Bool.not_eq_eq_eq_not, Bool.not_true, ← Bool.not_eq_true]
    intro hcon
    rw [List.contains_iff_exists_mem_beq] at hcon
    obtain ⟨k, hk, hbeq⟩ := hcon
    have hkx : k = (e.sessionId, e.ts) := (eq_of_beq hbeq).symm
    subst hkx
    obtain ⟨f, hf, hkey⟩ := List.mem_map.mp hk
    have hfsid : f.sessionId = sid :=
      backupsFor_sessionId sid st f ((perm_sortByKeyDesc _ _).subset (List.mem_of_mem_drop hf))
    have : f.sessionId = e.sessionId := congrArg Prod.fst hkey
    rw [hfsid, hsid'] at this
    exact hne this.symm
  · simp only [cleanupOldBackups, hbig, if_false]

theorem backupsFor_createSessionBackup_ne (sid' sid : String) (hne : sid' ≠ sid)
    (sess : Session) (now : Int) (st : Store) :
    backupsFor sid' ((createSessionBackup sid sess now st).1) = backupsFor sid' st := by
  have hcreate : (createSessionBackup sid sess now st).1
      = (cleanupOldBackups sid
          { st with backups := setBackup sid now (mkBackup sid sess now) st.backups }).1 := rfl
  rw [hcreate, backupsFor_cleanupOldBackups_ne sid' sid hne]
  simp only [backupsFor]
  exact filter_setBackup_ne sid' sid hne now _ st.backups

theorem filter_not_mem_keys (toRem keep : List BackupEntry)
    (hkeys : ∀ f ∈ toRem, ∀ e ∈ keep, (f.sessionId, f.ts) ≠ (e.sessionId, e.ts)) :
    (toRem ++ keep).filter
        (fun e => !((toRem.reverse.map (fun e => (e.sessionId, e.ts))).contains
          (e.sessionId, e.ts)))
      = keep := by
  rw [List.filter_append]
  have h1 : toRem.filter
      (fun e => !((toRem.reverse.map (fun e => (e.sessionId, e.ts))).contains
        (e.sessionId, e.ts))) = [] := by
    rw [List.filter_eq_nil_iff]
    intro f hf
    have hcontains : ((toRem.reverse.map (fun e => (e.sessionId, e.ts))).contains
        (f.sessionId, f.ts)) = true := by
      rw [List.contains_iff_exists_mem_beq]
      exact ⟨(f.sessionId, f.ts), List.mem_map_of_mem _ (List.mem_reverse.mpr hf), by simp⟩
    rw [hcontains]
    decide
  have h2 : keep.filter
      (fun e => !((toRem.reverse.map (fun e => (e.sessionId, e.ts))).contains
        (e.sessionId, e.ts))) = keep := by
    rw [List.filter_eq_self]
    intro e he
    have hcontains : ((toRem.reverse.map (fun e => (e.sessionId, e.ts))).contains
        (e.sessionId, e.ts)) = false := by
      rw [← Bool.not_eq_true]
      intro hcon
      rw [List.contains_iff_exists_mem_beq] at hcon
      obtain ⟨k, hk, hbeq⟩ := hcon
      have hkx : k = (e.sessionId, e.ts) := (eq_of_beq hbeq).symm
      subst hkx
      obtain ⟨f, hf, hkey⟩ := List.mem_map.mp hk
      exact hkeys f (List.mem_reverse.mp hf) e he hkey
    rw [hcontains]
    decide
  rw [h1, h2, List.nil_append]

/-- The exact effect of createSessionBackup on the session's backup
entries: the fresh entry is appended and the result pruned to its last
three entries (the list is in ascending key-timestamp order, so the last
three are the three most recent). -/
theorem backupsFor_createSessionBackup_eq (sessionId : String) (sess : Session) (now : Int)
    (st : Store)
    (hasc : (backupsFor sessionId st).Pairwise (fun a b => a.ts < b.ts))
    (hfresh : ∀ e ∈ backupsFor sessionId st, e.ts < now) :
    backupsFor sessionId ((createSessionBackup sessionId sess now st).1)
      = (backupsFor sessionId st
          ++ [({ sessionId := sessionId, ts := now, data := mkBackup sessionId sess now }
            : BackupEntry)]).drop ((backupsFor sessionId st).length + 1 - 3) := by
  have hcreate : (createSessionBackup sessionId sess now st).1
      = (cleanupOldBackups sessionId
          { st with backups := setBackup sessionId now (mkBackup sessionId sess now) st.backups }).1 :=
    rfl
  have hmatch := backupsFor_setBackup_fresh sessionId (mkBackup sessionId sess now) now st hfresh
  set x : BackupEntry := { sessionId := sessionId, ts := now, data := mkBackup sessionId sess now }
    with hxdef
  have hl'asc : (backupsFor sessionId st ++ [x]).Pairwise (fun a b => a.ts < b.ts) := by
    rw [List.pairwise_append]
    refine ⟨hasc, List.pairwise_singleton _ _, ?_⟩
    intro e he y hy
    have hyx : y = x := by simpa using hy
    subst hyx
    exact hfresh e he
  have hl'sid : ∀ e ∈ backupsFor sessionId st ++ [x], e.sessionId = sessionId := by
    intro e he
    rcases List.mem_append.mp he with h1 | h1
    · exact backupsFor_sessionId sessionId st e h1
    · have : e = x := by simpa using h1
      subst this
      rfl
  rw [hcreate]
  by_cases hbig : (backupsFor sessionId st ++ [x]).length > 3
  · have hbig2 : (backupsFor sessionId
        { st with backups := setBackup sessionId now (mkBackup sessionId sess now) st.backups }).length
          > 3 := by
      rw [hmatch]
      exact hbig
    simp only [cleanupOldBackups, hbig2, if_true]
    -- the sort is the reverse of the strictly ascending matching list
    have hsorted : sortByKeyDesc (fun e => e.ts)
        (backupsFor sessionId
          { st with backups := setBackup sessionId now (mkBackup sessionId sess now) st.backups })
          = (backupsFor sessionId st ++ [x]).reverse := by
      rw [hmatch]
      refine sortByKeyDesc_eq_of_perm _ (List.reverse_perm _).symm ?_
      rw [List.pairwise_reverse]
      exact hl'asc
    rw [hsorted]
    -- compute the result through the removal filter
    have hresult : backupsFor sessionId
        ({ st with backups :=
            ((setBackup sessionId now (mkBackup sessionId sess now) st.backups).filter
              (fun e => !((((backupsFor sessionId st ++ [x]).reverse.drop 3).map
                (fun e => (e.sessionId, e.ts))).contains (e.sessionId, e.ts)))) } : Store)
          = (backupsFor sessionId st ++ [x]).filter
              (fun e => !((((backupsFor sessionId st ++ [x]).reverse.drop 3).map
                (fun e => (e.sessionId, e.ts))).contains (e.sessionId, e.ts))) := by
      simp only [backupsFor]
      rw [List.filter_comm]
      have h2 : (setBackup sessionId now (mkBackup sessionId sess now) st.backups).filter
          (fun e => decide (e.sessionId = sessionId))
            = st.backups.filter (fun e => decide (e.sessionId = sessionId)) ++ [x] := hmatch
      rw [h2]
    rw [hresult]
    have hsplit := List.take_append_drop ((backupsFor sessionId st ++ [x]).length - 3)
      (backupsFor sessionId st ++ [x])
    have hcross : ∀ f ∈ (backupsFor sessionId st ++ [x]).take
          ((backupsFor sessionId st ++ [x]).length - 3),
        ∀ e ∈ (backupsFor sessionId st ++ [x]).drop
          ((backupsFor sessionId st ++ [x]).length - 3), f.ts < e.ts := by
      have hpw := List.pairwise_append.mp (by rw [hsplit]; exact hl'asc)
      exact hpw.2.2
    have hdropstep : (backupsFor sessionId st ++ [x]).reverse.drop 3
        = ((backupsFor sessionId st ++ [x]).take
            ((backupsFor sessionId st ++ [x]).length - 3)).reverse := by
      rw [List.drop_reverse]
    simp only [hdropstep]
    have hmain := filter_not_mem_keys
      ((backupsFor sessionId st ++ [x]).take ((backupsFor sessionId st ++ [x]).length - 3))
      ((backupsFor sessionId st ++ [x]).drop ((backupsFor sessionId st ++ [x]).length - 3))
      (by
        intro f hf e he hkey
        have hlt := hcross f hf e he
        have hts : f.ts = e.ts := congrArg Prod.snd hkey
        omega)
    rw [List.take_append_drop] at hmain
    rw [show (backupsFor sessionId st).length + 1 - 3
        = (backupsFor sessionId st ++ [x]).length - 3 by simp]
    exact hmain
  · have hbig2 : ¬ (backupsFor sessionId
        { st with backups := setBackup sessionId now (mkBackup sessionId sess now) st.backups }).length
          > 3 := by
      rw [hmatch]
      exact hbig
    simp only [cleanupOldBackups, hbig2, if_false]
    rw [hmatch]
    have hlen3 : (backupsFor sessionId st ++ [x]).length
        = (backupsFor sessionId st).length + 1 := by simp
    have h0 : (backupsFor sessionId st).length + 1 - 3 = 0 := by omega
    rw [h0, List.drop_zero]

theorem backups_logError (etype : String) (now : Int) (st : Store) :
    ((logError etype now st).1).backups = st.backups := rfl

theorem mem_contains_true (l : List BackupEntry) (e : BackupEntry) (he : e ∈ l) :
    l.contains e = true := by
  rw [List.contains_iff_exists_mem_beq]
  exact ⟨e, he, by simp⟩

theorem not_mem_contains_false (l : List BackupEntry) (e : BackupEntry) (he : e ∉ l) :
    l.contains e = false := by
  rw [← Bool.not_eq_true]
  intro hcon
  rw [List.contains_iff_exists_mem_beq] at hcon
  obtain ⟨f, hf, hbeq⟩ := hcon
  rw [eq_of_beq hbeq] at he
  exact he hf

/-- C1.  checkStorageLimitsAndCleanup leaves the messages of a session of at
most 1000 messages untouched (and, when quota is not under pressure, the
whole store); on a session of 1001 or more messages it leaves exactly the
800 most recent messages in order and creates exactly one new backup, keyed
at the current time, holding the compressed pre-trim message sequence, and
touches no other session's backups. -/
theorem checkStorageLimitsAndCleanup_spec (sess : Session) (st : Store) (now b1 b2 : Int)
    (hasc : (backupsFor sess.id st).Pairwise (fun a b => a.ts < b.ts))
    (hfresh : ∀ e ∈ backupsFor sess.id st, e.ts < now)
    (hq : b1 < STORAGE_LIMIT) :
    (sess.messages.length ≤ 1000 →
        (checkStorageLimitsAndCleanup sess now b1 b2 st).1.1 = sess
          ∧ (checkStorageLimitsAndCleanup sess now b1 b2 st).1.2 = st)
      ∧ (sess.messages.length ≥ 1001 →
        ((checkStorageLimitsAndCleanup sess now b1 b2 st).1.1).messages
            = sess.messages.drop (sess.messages.length - 800)
          ∧ ((checkStorageLimitsAndCleanup sess now b1 b2 st).1.1).messages.length = 800
          ∧ (backupsFor sess.id ((checkStorageLimitsAndCleanup sess now b1 b2 st).1.2)).filter
                (fun e => !((backupsFor sess.id st).contains e))
              = [({ sessionId := sess.id, ts := now, data := mkBackup sess.id sess now }
                  : BackupEntry)]
          ∧ (∀ sid, sid ≠ sess.id →
              backupsFor sid ((checkStorageLimitsAndCleanup sess now b1 b2 st).1.2)
                = backupsFor sid st)) := by
  have hspace : (checkStorageQuota b1).hasSpace = true := by
    simp [checkStorageQuota, hq]
  constructor
  · intro hle
    have hnottrim : ¬ sess.messages.length > 1000 := by omega
    simp only [checkStorageLimitsAndCleanup, hnottrim, if_false, hspace, if_true]
    exact ⟨by trivial, by trivial⟩
  · intro hge
    have htrim : sess.messages.length > 1000 := by omega
    simp only [checkStorageLimitsAndCleanup, htrim, if_true, hspace]
    refine ⟨by trivial, ?_, ?_, ?_⟩
    · simp only [List.length_drop]
      omega
    · have hstore : ((logError "session_cleanup" now
          (createSessionBackup sess.id sess now st).1).1).backups
            = ((createSessionBackup sess.id sess now st).1).backups := rfl
      have hbk : backupsFor sess.id ((logError "session_cleanup" now
          (createSessionBackup sess.id sess now st).1).1)
            = backupsFor sess.id ((createSessionBackup sess.id sess now st).1) := rfl
      rw [hbk, backupsFor_createSessionBackup_eq sess.id sess now st hasc hfresh]
      have hk : (backupsFor sess.id st).length + 1 - 3 ≤ (backupsFor sess.id st).length := by
        omega
      rw [List.drop_append_of_le_length hk]
      rw [List.filter_append]
      have h1 : ((backupsFor sess.id st).drop
          ((backupsFor sess.id st).length + 1 - 3)).filter
            (fun e => !((backupsFor sess.id st).contains e)) = [] := by
        rw [List.filter_eq_nil_iff]
        intro e he
        rw [mem_contains_true _ e (List.mem_of_mem_drop he)]
        decide
      have hxnot : ({ sessionId := sess.id, ts := now, data := mkBackup sess.id sess now }
          : BackupEntry) ∉ backupsFor sess.id st := by
        intro hcon
        have := hfresh _ hcon
        simp at this
      have h2 : ([({ sessionId := sess.id, ts := now, data := mkBackup sess.id sess now }
          : BackupEntry)]).filter (fun e => !((backupsFor sess.id st).contains e))
            = [({ sessionId := sess.id, ts := now, data := mkBackup sess.id sess now }
                : BackupEntry)] := by
        rw [List.filter_eq_self]
        intro e he
        have hex : e = ({ sessionId := sess.id, ts := now, data := mkBackup sess.id sess now }
            : BackupEntry) := by simpa using he
        subst hex
        rw [not_mem_contains_false _ _ hxnot]
        decide
      rw [h1, h2, List.nil_append]
    · intro sid hsid
      have hbk : backupsFor sid ((logError "session_cleanup" now
          (createSessionBackup sess.id sess now st).1).1)
            = backupsFor sid ((createSessionBackup sess.id sess now st).1) := rfl
      rw [hbk]
      exact backupsFor_createSessionBackup_ne sid sess.id hsid sess now st

theorem checkStorageLimitsAndCleanup_spec_witness :
    ((backupsFor sampleSession.id emptyStore).Pairwise (fun a b => a.ts < b.ts)
        ∧ (∀ e ∈ backupsFor sampleSession.id emptyStore, e.ts < 10)
        ∧ (0 : Int) < STORAGE_LIMIT)
      ∧ ((sampleSession.messages.length ≤ 1000 →
            (checkStorageLimitsAndCleanup sampleSession 10 0 0 emptyStore).1.1 = sampleSession
              ∧ (checkStorageLimitsAndCleanup sampleSession 10 0 0 emptyStore).1.2 = emptyStore)
          ∧ (sampleSession.messages.length ≥ 1001 →
            ((checkStorageLimitsAndCleanup sampleSession 10 0 0 emptyStore).1.1).messages
                = sampleSession.messages.drop (sampleSession.messages.length - 800)
              ∧ ((checkStorageLimitsAndCleanup sampleSession 10 0 0 emptyStore).1.1).messages.length
                  = 800
              ∧ (backupsFor sampleSession.id
                    ((checkStorageLimitsAndCleanup sampleSession 10 0 0 emptyStore).1.2)).filter
                    (fun e => !((backupsFor sampleSession.id emptyStore).contains e))
                  = [({ sessionId := sampleSession.id, ts := 10,
                        data := mkBackup sampleSession.id sampleSession 10 } : BackupEntry)]
              ∧ (∀ sid, sid ≠ sampleSession.id →
                  backupsFor sid ((checkStorageLimitsAndCleanup sampleSession 10 0 0 emptyStore).1.2)
                    = backupsFor sid emptyStore))) :=
  ⟨⟨by decide, by decide, by decide⟩,
    checkStorageLimitsAndCleanup_spec sampleSession emptyStore 10 0 0
      (by decide) (by decide) (by decide)⟩

/-- The iteration of the backup-retention claim: create one backup per
snapshot (timestamp and session data), each immediately followed by the
per-session pruning that createSessionBackup performs. -/
def createBackups (sessionId : String) : List (Int × Session) → Store → Store
  | [], st => st
  | p :: rest, st => createBackups sessionId rest ((createSessionBackup sessionId p.2 p.1 st).1)

theorem createBackups_backupsFor (sessionId : String) (snaps : List (Int × Session)) :
    ∀ st : Store,
    (backupsFor sessionId st).Pairwise (fun a b => a.ts < b.ts) →
    (backupsFor sessionId st).length ≤ 3 →
    (∀ e ∈ backupsFor sessionId st, ∀ p ∈ snaps, e.ts < p.1) →
    snaps.Pairwise (fun p q => p.1 < q.1) →
    backupsFor sessionId (createBackups sessionId snaps st)
      = (backupsFor sessionId st
          ++ snaps.map (fun p =>
            ({ sessionId := sessionId, ts := p.1, data := mkBackup sessionId p.2 p.1 }
              : BackupEntry))).drop
            ((backupsFor sessionId st).length + snaps.length - 3) := by
  induction snaps with
  | nil =>
    intro st hasc hlen hfresh hsnaps
    simp only [createBackups, List.map_nil, List.append_nil, List.length_nil]
    have h0 : (backupsFor sessionId st).length + 0 - 3 = 0 := by omega
    rw [h0, List.drop_zero]
  | cons p rest ih =>
    intro st hasc hlen hfresh hsnaps
    have hfresh1 : ∀ e ∈ backupsFor sessionId st, e.ts < p.1 :=
      fun e he => hfresh e he p (List.mem_cons_self _ _)
    have hchar := backupsFor_createSessionBackup_eq sessionId p.2 p.1 st hasc hfresh1
    set x : BackupEntry :=
      { sessionId := sessionId, ts := p.1, data := mkBackup sessionId p.2 p.1 } with hx
    have hl'asc : (backupsFor sessionId st ++ [x]).Pairwise (fun a b => a.ts < b.ts) := by
      rw [List.pairwise_append]
      refine ⟨hasc, List.pairwise_singleton _ _, ?_⟩
      intro e he y hy
      have hyx : y = x := by simpa using hy
      subst hyx
      exact hfresh1 e he
    have hasc1 : (backupsFor sessionId
        ((createSessionBackup sessionId p.2 p.1 st).1)).Pairwise (fun a b => a.ts < b.ts) := by
      rw [hchar]
      exact hl'asc.sublist (List.drop_sublist _ _)
    have hlen1 : (backupsFor sessionId
        ((createSessionBackup sessionId p.2 p.1 st).1)).length ≤ 3 := by
      rw [hchar, List.length_drop, List.length_append, List.length_cons, List.length_nil]
      omega
    have hfresh2 : ∀ e ∈ backupsFor sessionId ((createSessionBackup sessionId p.2 p.1 st).1),
        ∀ q ∈ rest, e.ts < q.1 := by
      intro e he q hq
      rw [hchar] at he
      have hemem : e ∈ backupsFor sessionId st ++ [x] := List.mem_of_mem_drop he
      rcases List.mem_append.mp hemem with h1 | h1
      · exact hfresh e h1 q (List.mem_cons_of_mem _ hq)
      · have hex : e = x := by simpa using h1
        subst hex
        exact (List.pairwise_cons.mp hsnaps).1 q hq
    have hrec := ih ((createSessionBackup sessionId p.2 p.1 st).1) hasc1 hlen1 hfresh2
      (List.Pairwise.of_cons hsnaps)
    simp only [createBackups]
    rw [hrec, hchar]
    have hd1 : (backupsFor sessionId st).length + 1 - 3
        ≤ (backupsFor sessionId st ++ [x]).length := by
      rw [List.length_append, List.length_cons, List.length_nil]
      omega
    rw [← List.drop_append_of_le_length hd1]
    rw [List.drop_drop]
    rw [List.append_assoc, List.map_cons]
    congr 1
    simp only [List.length_drop, List.length_append, List.length_cons, List.length_nil]
    omega

/-- C6.  Starting from a store with no backups for the session, after N
backups have been created for it at strictly increasing timestamps (each
creation immediately followed by the per-session pruning), exactly 3
backups remain for the session, namely the backups of the last 3
creations, i.e. the 3 with the greatest creation timestamps. -/
theorem backup_retention_bound (sessionId : String) (snaps : List (Int × Session)) (st : Store)
    (hempty : backupsFor sessionId st = [])
    (hsnaps : snaps.Pairwise (fun p q => p.1 < q.1))
    (hN : snaps.length ≥ 4) :
    backupsFor sessionId (createBackups sessionId snaps st)
        = (snaps.map (fun p =>
            ({ sessionId := sessionId, ts := p.1, data := mkBackup sessionId p.2 p.1 }
              : BackupEntry))).drop (snaps.length - 3)
      ∧ (backupsFor sessionId (createBackups sessionId snaps st)).length = 3 := by
  have h := createBackups_backupsFor sessionId snaps st
    (by rw [hempty]; exact List.Pairwise.nil)
    (by rw [hempty]; simp)
    (by rw [hempty]; simp)
    hsnaps
  rw [hempty, List.nil_append, List.length_nil, Nat.zero_add] at h
  refine ⟨h, ?_⟩
  rw [h, List.length_drop, List.length_map]
  omega

/-- Four backup snapshots at increasing timestamps, for the retention
witness. -/
def fourSnaps : List (Int × Session) :=
  [(1, sampleSession), (2, sampleSession), (3, sampleSession), (4, sampleSession)]

theorem backup_retention_bound_witness :
    backupsFor "s1" emptyStore = []
      ∧ fourSnaps.Pairwise (fun p q => p.1 < q.1)
      ∧ fourSnaps.length ≥ 4
      ∧ (backupsFor "s1" (createBackups "s1" fourSnaps emptyStore)
            = (fourSnaps.map (fun p =>
                ({ sessionId := "s1", ts := p.1, data := mkBackup "s1" p.2 p.1 }
                  : BackupEntry))).drop (fourSnaps.length - 3)
          ∧ (backupsFor "s1" (createBackups "s1" fourSnaps emptyStore)).length = 3) :=
  ⟨by decide, by decide, by decide,
    backup_retention_bound "s1" fourSnaps emptyStore (by decide) (by decide) (by decide)⟩

theorem mem_setSession (k : String) (v : Session) (l : List (String × Session))
    (r : String × Session) (hr : r ∈ setSession k v l) : r = (k, v) ∨ r ∈ l := by
  induction l with
  | nil => simpa [setSession] using hr
  | cons e rest ih =>
    obtain ⟨ek, ev⟩ := e
    by_cases hk : ek = k
    · subst hk
      simp only [setSession, if_pos rfl] at hr
      rcases List.mem_cons.mp hr with h1 | h1
      · exact Or.inl h1
      · exact Or.inr (List.mem_cons_of_mem _ h1)
    · simp only [setSession, if_neg hk] at hr
      rcases List.mem_cons.mp hr with h1 | h1
      · exact Or.inr (by simp [h1])
      · rcases ih h1 with h2 | h2
        · exact Or.inl h2
        · exact Or.inr (List.mem_cons_of_mem _ h2)

theorem mem_setSession_of_ne (k : String) (v : Session) (l : List (String × Session))
    (q : String × Session) (hq : q ∈ l) (hne : q.1 ≠ k) : q ∈ setSession k v l := by
  induction l with
  | nil => simp at hq
  | cons e rest ih =>
    obtain ⟨ek, ev⟩ := e
    by_cases hk : ek = k
    · subst hk
      simp only [setSession, if_pos rfl]
      rcases List.mem_cons.mp hq with h1 | h1
      · exfalso
        apply hne
        rw [h1]
      · exact List.mem_cons_of_mem _ h1
    · simp only [setSession, if_neg hk]
      rcases List.mem_cons.mp hq with h1 | h1
      · exact List.mem_cons.mpr (Or.inl h1)
      · exact List.mem_cons_of_mem _ (ih h1)

theorem keys_setSession (k : String) (v : Session) (l : List (String × Session))
    (hk : k ∈ l.map (fun p => p.1)) :
    (setSession k v l).map (fun p => p.1) = l.map (fun p => p.1) := by
  induction l with
  | nil => simp at hk
  | cons e rest ih =>
    obtain ⟨ek, ev⟩ := e
    by_cases hek : ek = k
    · subst hek
      simp [setSession]
    · simp only [setSession, if_neg hek, List.map_cons]
      congr 1
      apply ih
      simp only [List.map_cons, List.mem_cons] at hk
      rcases hk with h1 | h1
      · exact absurd h1.symm hek
      · exact h1

theorem setSession_key_unique (k : String) (v : Session) (l : List (String × Session))
    (hnodup : (l.map (fun p => p.1)).Nodup)
    (r : String × Session) (hr : r ∈ setSession k v l) (hrk : r.1 = k) :
    r = (k, v) ∨ (r ∈ l ∧ k ∉ l.map (fun p => p.1)) := by
  induction l with
  | nil =>
    simp only [setSession] at hr
    rcases List.mem_cons.mp hr with h1 | h1
    · exact Or.inl h1
    · simp at h1
  | cons e rest ih =>
    obtain ⟨ek, ev⟩ := e
    by_cases hek : ek = k
    · subst hek
      simp only [setSession, if_pos rfl] at hr
      rcases List.mem_cons.mp hr with h1 | h1
      · exact Or.inl h1
      · exfalso
        have h2 : r.1 ∈ rest.map (fun p => p.1) := List.mem_map_of_mem _ h1
        rw [hrk] at h2
        simp only [List.map_cons, List.nodup_cons] at hnodup
        exact hnodup.1 h2
    · simp only [setSession, if_neg hek] at hr
      simp only [List.map_cons, List.nodup_cons] at hnodup
      rcases List.mem_cons.mp hr with h1 | h1
      · exfalso
        rw [h1] at hrk
        exact hek hrk
      · rcases ih hnodup.2 h1 with h2 | h2
        · exact Or.inl h2
        · refine Or.inr ⟨List.mem_cons_of_mem _ h2.1, ?_⟩
          simp only [List.map_cons, List.mem_cons]
          rintro (h3 | h3)
          · exact hek h3.symm
          · exact h2.2 h3

theorem errors_createSessionBackup (sessionId : String) (sess : Session) (now : Int)
    (st : Store) : ((createSessionBackup sessionId sess now st).1).errors = st.errors := by
  by_cases h : (backupsFor sessionId
      { st with backups := setBackup sessionId now (mkBackup sessionId sess now) st.backups }).length
        > 3 <;>
    simp [createSessionBackup, cleanupOldBackups, h]

theorem tabStates_createSessionBackup (sessionId : String) (sess : Session) (now : Int)
    (st : Store) : ((createSessionBackup sessionId sess now st).1).tabStates = st.tabStates := by
  by_cases h : (backupsFor sessionId
      { st with backups := setBackup sessionId now (mkBackup sessionId sess now) st.backups }).length
        > 3 <;>
    simp [createSessionBackup, cleanupOldBackups, h]

theorem backupEvicted_sessions (now : Int) (l : List (String × Session)) (st : Store) :
    ((backupEvicted now l st).1).sessions = st.sessions := by
  induction l generalizing st with
  | nil => rfl
  | cons p rest ih =>
    simp only [backupEvicted]
    rw [ih, sessions_createSessionBackup]

theorem backupEvicted_errors (now : Int) (l : List (String × Session)) (st : Store) :
    ((backupEvicted now l st).1).errors = st.errors := by
  induction l generalizing st with
  | nil => rfl
  | cons p rest ih =>
    simp only [backupEvicted]
    rw [ih, errors_createSessionBackup]

theorem backupEvicted_tabStates (now : Int) (l : List (String × Session)) (st : Store) :
    ((backupEvicted now l st).1).tabStates = st.tabStates := by
  induction l generalizing st with
  | nil => rfl
  | cons p rest ih =>
    simp only [backupEvicted]
    rw [ih, tabStates_createSessionBackup]

theorem truncateRemaining_errors (now : Int) (l : List (String × Session)) (st : Store) :
    ((truncateRemaining now l st).1).errors = st.errors := by
  induction l generalizing st with
  | nil => rfl
  | cons p rest ih =>
    by_cases h : p.2.messages.length > 100 <;> simp only [truncateRemaining, h, if_true, if_false]
    · rw [ih]
      exact errors_createSessionBackup _ _ _ _
    · exact ih st

theorem truncateRemaining_tabStates (now : Int) (l : List (String × Session)) (st : Store) :
    ((truncateRemaining now l st).1).tabStates = st.tabStates := by
  induction l generalizing st with
  | nil => rfl
  | cons p rest ih =>
    by_cases h : p.2.messages.length > 100 <;> simp only [truncateRemaining, h, if_true, if_false]
    · rw [ih]
      exact tabStates_createSessionBackup _ _ _ _
    · exact ih st

theorem backupEvicted_backupsFor_ne (now : Int) (l : List (String × Session)) (st : Store)
    (sid : String) (hsid : ∀ p ∈ l, p.2.id ≠ sid) :
    backupsFor sid ((backupEvicted now l st).1) = backupsFor sid st := by
  induction l generalizing st with
  | nil => rfl
  | cons p rest ih =>
    simp only [backupEvicted]
    rw [ih _ (fun q hq => hsid q (List.mem_cons_of_mem _ hq)),
      backupsFor_createSessionBackup_ne sid p.2.id
        (fun h => hsid p (List.mem_cons_self _ _) h.symm)]

theorem truncateRemaining_backupsFor_ne (now : Int) (l : List (String × Session)) (st : Store)
    (sid : String) (hsid : ∀ p ∈ l, p.2.id ≠ sid) :
    backupsFor sid ((truncateRemaining now l st).1) = backupsFor sid st := by
  induction l generalizing st with
  | nil => rfl
  | cons p rest ih =>
    by_cases h : p.2.messages.length > 100 <;> simp only [truncateRemaining, h, if_true, if_false]
    · rw [ih _ (fun q hq => hsid q (List.mem_cons_of_mem _ hq))]
      show backupsFor sid { (createSessionBackup p.2.id p.2 now st).1 with
        sessions := _ } = backupsFor sid st
      rw [show backupsFor sid { (createSessionBackup p.2.id p.2 now st).1 with
          sessions := setSession p.1
            { p.2 with messages := p.2.messages.drop (p.2.messages.length - 100) }
            ((createSessionBackup p.2.id p.2 now st).1).sessions }
          = backupsFor sid ((createSessionBackup p.2.id p.2 now st).1) from rfl]
      exact backupsFor_createSessionBackup_ne sid p.2.id
        (fun hcc => hsid p (List.mem_cons_self _ _) hcc.symm) p.2 now st
    · exact ih _ (fun q hq => hsid q (List.mem_cons_of_mem _ hq))

theorem backupEvicted_mem (now : Int) (l : List (String × Session)) (st : Store)
    (hids : (l.map (fun p => p.2.id)).Nodup)
    (hfr : ∀ p ∈ l, ∀ e ∈ backupsFor p.2.id st, e.ts < now) :
    ∀ p ∈ l, ({ sessionId := p.2.id, ts := now, data := mkBackup p.2.id p.2 now } : BackupEntry)
      ∈ backupsFor p.2.id ((backupEvicted now l st).1) := by
  induction l generalizing st with
  | nil => intro p hp; simp at hp
  | cons q rest ih =>
    intro p hp
    simp only [List.map_cons, List.nodup_cons] at hids
    have hqne : ∀ r ∈ rest, r.2.id ≠ q.2.id := by
      intro r hr hcc
      exact hids.1 (hcc ▸ List.mem_map_of_mem _ hr)
    rcases List.mem_cons.mp hp with h1 | h1
    · subst h1
      simp only [backupEvicted]
      rw [backupEvicted_backupsFor_ne now rest _ p.2.id hqne]
      exact (backupsFor_createSessionBackup_target p.2.id p.2 now st
        (hfr p (List.mem_cons_self _ _))).1
    · simp only [backupEvicted]
      apply ih _ hids.2 _ p h1
      intro r hr e he
      rw [backupsFor_createSessionBackup_ne r.2.id q.2.id (hqne r hr)] at he
      exact hfr r (List.mem_cons_of_mem _ hr) e he

theorem truncateRemaining_mem_backup (now : Int) (l : List (String × Session)) (st : Store)
    (hids : (l.map (fun p => p.2.id)).Nodup)
    (hfr : ∀ p ∈ l, ∀ e ∈ backupsFor p.2.id st, e.ts < now) :
    ∀ p ∈ l, p.2.messages.length > 100 →
      ({ sessionId := p.2.id, ts := now, data := mkBackup p.2.id p.2 now } : BackupEntry)
        ∈ backupsFor p.2.id ((truncateRemaining now l st).1) := by
  induction l generalizing st with
  | nil => intro p hp; simp at hp
  | cons q rest ih =>
    intro p hp hbig
    simp only [List.map_cons, List.nodup_cons] at hids
    have hqne : ∀ r ∈ rest, r.2.id ≠ q.2.id := by
      intro r hr hcc
      exact hids.1 (hcc ▸ List.mem_map_of_mem _ hr)
    rcases List.mem_cons.mp hp with h1 | h1
    · subst h1
      simp only [truncateRemaining, hbig, if_true]
      rw [truncateRemaining_backupsFor_ne now rest _ p.2.id hqne]
      rw [show backupsFor p.2.id { (createSessionBackup p.2.id p.2 now st).1 with
          sessions := setSession p.1
            { p.2 with messages := p.2.messages.drop (p.2.messages.length - 100) }
            ((createSessionBackup p.2.id p.2 now st).1).sessions }
          = backupsFor p.2.id ((createSessionBackup p.2.id p.2 now st).1) from rfl]
      exact (backupsFor_createSessionBackup_target p.2.id p.2 now st
        (hfr p (List.mem_cons_self _ _))).1
    · by_cases hq : q.2.messages.length > 100 <;>
        simp only [truncateRemaining, hq, if_true, if_false]
      · apply ih _ hids.2 _ p h1 hbig
        intro r hr e he
        rw [show backupsFor r.2.id { (createSessionBackup q.2.id q.2 now st).1 with
            sessions := setSession q.1
              { q.2 with messages := q.2.messages.drop (q.2.messages.length - 100) }
              ((createSessionBackup q.2.id q.2 now st).1).sessions }
            = backupsFor r.2.id ((createSessionBackup q.2.id q.2 now st).1) from rfl] at he
        rw [backupsFor_createSessionBackup_ne r.2.id q.2.id (hqne r hr)] at he
        exact hfr r (List.mem_cons_of_mem _ hr) e he
      · exact ih _ hids.2
          (fun r hr e he => hfr r (List.mem_cons_of_mem _ hr) e he) p h1 hbig

theorem truncateRemaining_sessions_spec (now : Int) (l : List (String × Session)) (st : Store)
    (hkeys : (st.sessions.map (fun p => p.1)).Nodup)
    (hsub : ∀ p ∈ l, p ∈ st.sessions)
    (hlkeys : (l.map (fun p => p.1)).Nodup)
    (hsmall : ∀ r ∈ st.sessions,
      (∃ p ∈ l, p.1 = r.1 ∧ p.2 = r.2) ∨ r.2.messages.length ≤ 100) :
    ((truncateRemaining now l st).1).sessions.map (fun p => p.1)
        = st.sessions.map (fun p => p.1)
      ∧ ∀ r ∈ ((truncateRemaining now l st).1).sessions,
          r.2.messages.length ≤ 100
            ∧ ∃ q ∈ st.sessions, r.1 = q.1
                ∧ r.2.messages = q.2.messages.drop (q.2.messages.length - 100) := by
  induction l generalizing st with
  | nil =>
    refine ⟨rfl, ?_⟩
    intro r hr
    rcases hsmall r hr with ⟨p, hp, _⟩ | hle
    · simp at hp
    · exact ⟨hle, r, hr, rfl, by rw [Nat.sub_eq_zero_of_le hle, List.drop_zero]⟩
  | cons p rest ih =>
    simp only [List.map_cons, List.nodup_cons] at hlkeys
    have hpkey : p.1 ∈ st.sessions.map (fun q => q.1) :=
      List.mem_map_of_mem _ (hsub p (List.mem_cons_self _ _))
    by_cases hbig : p.2.messages.length > 100
    · simp only [truncateRemaining, hbig, if_true]
      have hsess2 : ({ (createSessionBackup p.2.id p.2 now st).1 with
          sessions := setSession p.1
            { p.2 with messages := p.2.messages.drop (p.2.messages.length - 100) }
            ((createSessionBackup p.2.id p.2 now st).1).sessions } : Store).sessions
          = setSession p.1
            { p.2 with messages := p.2.messages.drop (p.2.messages.length - 100) }
            st.sessions := by
        rw [show ({ (createSessionBackup p.2.id p.2 now st).1 with
            sessions := setSession p.1
              { p.2 with messages := p.2.messages.drop (p.2.messages.length - 100) }
              ((createSessionBackup p.2.id p.2 now st).1).sessions } : Store).sessions
            = setSession p.1
              { p.2 with messages := p.2.messages.drop (p.2.messages.length - 100) }
              ((createSessionBackup p.2.id p.2 now st).1).sessions from rfl]
        rw [sessions_createSessionBackup]
      have hkeys2eq : (setSession p.1
          { p.2 with messages := p.2.messages.drop (p.2.messages.length - 100) }
          st.sessions).map (fun q => q.1) = st.sessions.map (fun q => q.1) :=
        keys_setSession _ _ _ hpkey
      have htrlen : ({ p.2 with
          messages := p.2.messages.drop (p.2.messages.length - 100) } : Session).messages.length
          ≤ 100 := by
        simp only [List.length_drop]
        omega
      obtain ⟨ihkeys, ihmem⟩ := ih _ (by rw [hsess2, hkeys2eq]; exact hkeys)
        (by
          intro q hq
          rw [hsess2]
          exact mem_setSession_of_ne _ _ _ q (hsub q (List.mem_cons_of_mem _ hq))
            (fun hc => hlkeys.1 (hc ▸ List.mem_map_of_mem _ hq)))
        hlkeys.2
        (by
          intro r hr
          rw [hsess2] at hr
          rcases mem_setSession _ _ _ _ hr with heq | hmemst
          · right
            rw [heq]
            exact htrlen
          · rcases hsmall r hmemst with ⟨q, hq, hq1, hq2⟩ | hle
            · rcases List.mem_cons.mp hq with hqp | hqrest
              · subst hqp
                rcases setSession_key_unique _ _ _ hkeys r hr hq1.symm with heq | habs
                · right
                  rw [heq]
                  exact htrlen
                · exact absurd hpkey habs.2
              · exact Or.inl ⟨q, hqrest, hq1, hq2⟩
            · exact Or.inr hle)
      constructor
      · rw [ihkeys, hsess2, hkeys2eq]
      · intro r hr
        obtain ⟨hle, q', hq', hr1, hrmsg⟩ := ihmem r hr
        refine ⟨hle, ?_⟩
        rw [hsess2] at hq'
        rcases mem_setSession _ _ _ _ hq' with heq | hmemst
        · refine ⟨p, hsub p (List.mem_cons_self _ _), by rw [hr1, heq], ?_⟩
          rw [hrmsg, heq]
          show (p.2.messages.drop (p.2.messages.length - 100)).drop
              ((p.2.messages.drop (p.2.messages.length - 100)).length - 100)
            = p.2.messages.drop (p.2.messages.length - 100)
          rw [List.length_drop, Nat.sub_eq_zero_of_le (by omega), List.drop_zero]
        · exact ⟨q', hmemst, hr1, hrmsg⟩
    · simp only [truncateRemaining, hbig, if_false]
      exact ih st hkeys (fun q hq => hsub q (List.mem_cons_of_mem _ hq)) hlkeys.2
        (by
          intro r hr
          rcases hsmall r hr with ⟨q, hq, hq1, hq2⟩ | hle
          · rcases List.mem_cons.mp hq with hqp | hqrest
            · subst hqp
              right
              rw [← hq2]
              omega
            · exact Or.inl ⟨q, hqrest, hq1, hq2⟩
          · exact Or.inr hle)

/-- C7.  After performEmergencyCleanup completes on a store whose session
keys are distinct and agree with the stored session ids and whose existing
backups predate the run: no error-log entries remain, no tab-state entries
remain, at most 3 sessions remain, every surviving session holds at most
its 100 most-recent messages (a suffix of the messages it held before),
every evicted session was backed up first (a backup of its full content
keyed by this run survives in the result), every surviving session that was
truncated was backed up first, and every evicted session is no more
recently active than any surviving one. -/
theorem performEmergencyCleanup_spec (now : Int) (st : Store)
    (hids : ∀ p ∈ st.sessions, p.2.id = p.1)
    (hkeys : (st.sessions.map (fun p => p.1)).Nodup)
    (hfresh : ∀ e ∈ st.backups, e.ts < now) :
    ((performEmergencyCleanup now st).1).errors = []
      ∧ ((performEmergencyCleanup now st).1).tabStates = []
      ∧ ((performEmergencyCleanup now st).1).sessions.length ≤ 3
      ∧ (∀ r ∈ ((performEmergencyCleanup now st).1).sessions,
          r.2.messages.length ≤ 100
            ∧ ∃ q ∈ st.sessions, r.1 = q.1
                ∧ r.2.messages = q.2.messages.drop (q.2.messages.length - 100))
      ∧ (∀ q ∈ st.sessions,
          q.1 ∉ ((performEmergencyCleanup now st).1).sessions.map (fun p => p.1) →
            ({ sessionId := q.2.id, ts := now, data := mkBackup q.2.id q.2 now } : BackupEntry)
              ∈ backupsFor q.2.id ((performEmergencyCleanup now st).1))
      ∧ (∀ q ∈ st.sessions,
          q.1 ∈ ((performEmergencyCleanup now st).1).sessions.map (fun p => p.1) →
            q.2.messages.length > 100 →
            ({ sessionId := q.2.id, ts := now, data := mkBackup q.2.id q.2 now } : BackupEntry)
              ∈ backupsFor q.2.id ((performEmergencyCleanup now st).1))
      ∧ (∀ q ∈ st.sessions,
          q.1 ∉ ((performEmergencyCleanup now st).1).sessions.map (fun p => p.1) →
            ∀ r ∈ st.sessions,
              r.1 ∈ ((performEmergencyCleanup now st).1).sessions.map (fun p => p.1) →
                q.2.lastActivity ≤ r.2.lastActivity) := by
  obtain ⟨st1, hst1⟩ : ∃ s : Store, ({ st with errors := [], tabStates := [] } : Store) = s :=
    ⟨_, rfl⟩
  have hst1sess : st1.sessions = st.sessions := by rw [← hst1]
  have hst1back : st1.backups = st.backups := by rw [← hst1]
  have hst1err : st1.errors = [] := by rw [← hst1]
  have hst1tab : st1.tabStates = [] := by rw [← hst1]
  have hfr1 : ∀ sid, ∀ e ∈ backupsFor sid st1, e.ts < now := by
    intro sid e he
    simp only [backupsFor, hst1back, List.mem_filter] at he
    exact hfresh e he.1
  by_cases hbig3 : st.sessions.length > 3
  · obtain ⟨sorted, hsorted⟩ :
        ∃ s, sortByKeyDesc (fun p => p.2.lastActivity) st.sessions = s := ⟨_, rfl⟩
    obtain ⟨ab, hab⟩ : ∃ a, backupEvicted now (sorted.drop 3) st1 = a := ⟨_, rfl⟩
    obtain ⟨fs, hfs⟩ : ∃ l, ab.1.sessions.filter
        (fun p => !(((sorted.drop 3).map (fun p => p.1)).contains p.1)) = l := ⟨_, rfl⟩
    obtain ⟨st3, hst3⟩ : ∃ s : Store, ({ ab.1 with sessions := fs } : Store) = s := ⟨_, rfl⟩
    have hunfold : (performEmergencyCleanup now st).1
        = (truncateRemaining now (sorted.take 3) st3).1 := by
      simp only [performEmergencyCleanup]
      rw [if_pos hbig3, hsorted, hst1, hab, hfs, hst3]
    have hsortperm : sorted.Perm st.sessions :=
      hsorted ▸ perm_sortByKeyDesc (fun p => p.2.lastActivity) st.sessions
    have hdesc : sorted.Pairwise (fun a b => b.2.lastActivity ≤ a.2.lastActivity) :=
      hsorted ▸ pairwise_sortByKeyDesc (fun p => p.2.lastActivity) st.sessions
    have hsplit : sorted.take 3 ++ sorted.drop 3 = sorted := List.take_append_drop _ _
    have hsortkeys : (sorted.map (fun p => p.1)).Nodup :=
      ((hsortperm.map (fun p => p.1)).nodup_iff).mpr hkeys
    have hidss : ∀ p ∈ sorted, p.2.id = p.1 := fun p hp => hids p (hsortperm.subset hp)
    have happkeys : (((sorted.take 3).map (fun p => p.1))
        ++ ((sorted.drop 3).map (fun p => p.1))).Nodup := by
      rw [← List.map_append, hsplit]
      exact hsortkeys
    have hdisj : ((sorted.take 3).map (fun p => p.1)).Disjoint
        ((sorted.drop 3).map (fun p => p.1)) :=
      List.disjoint_of_nodup_append happkeys
    have hkeptkeys : ((sorted.take 3).map (fun p => p.1)).Nodup := happkeys.of_append_left
    have hevkeys : ((sorted.drop 3).map (fun p => p.1)).Nodup := happkeys.of_append_right
    have hkeptpred : ∀ p ∈ sorted.take 3,
        (!(((sorted.drop 3).map (fun p => p.1)).contains p.1)) = true := by
      intro p hp
      rw [Bool.not_eq_eq_eq_not, Bool.not_true, ← Bool.not_eq_true]
      intro hcon
      rw [List.contains_iff_exists_mem_beq] at hcon
      obtain ⟨k, hk, hbeq⟩ := hcon
      have hkp : k = p.1 := (eq_of_beq hbeq).symm
      subst hkp
      exact hdisj (List.mem_map_of_mem (fun p => p.1) hp) hk
    have hrempred : ∀ p ∈ sorted.drop 3,
        (!(((sorted.drop 3).map (fun p => p.1)).contains p.1)) = false := by
      intro p hp
      have hcontains : ((sorted.drop 3).map (fun p => p.1)).contains p.1 = true := by
        rw [List.contains_iff_exists_mem_beq]
        exact ⟨p.1, List.mem_map_of_mem (fun p => p.1) hp, by simp⟩
      rw [hcontains]
      rfl
    have habsess : ab.1.sessions = st.sessions := by
      rw [← hab, backupEvicted_sessions, hst1sess]
    have hst3sess : st3.sessions = st.sessions.filter
        (fun p => !(((sorted.drop 3).map (fun p => p.1)).contains p.1)) := by
      rw [← hst3]
      show fs = _
      rw [← hfs, habsess]
    have hst3backs : ∀ sid, backupsFor sid st3 = backupsFor sid ab.1 := by
      intro sid
      simp only [backupsFor]
      rw [← hst3]
    have hst3perm : st3.sessions.Perm (sorted.take 3) := by
      rw [hst3sess]
      have h3 : (st.sessions.filter
          (fun p => !(((sorted.drop 3).map (fun p => p.1)).contains p.1))).Perm
            (sorted.filter (fun p => !(((sorted.drop 3).map (fun p => p.1)).contains p.1))) :=
        (hsortperm.symm).filter _
      have h4 : sorted.filter (fun p => !(((sorted.drop 3).map (fun p => p.1)).contains p.1))
          = sorted.take 3 := by
        have h5 : (sorted.take 3 ++ sorted.drop 3).filter
            (fun p => !(((sorted.drop 3).map (fun p => p.1)).contains p.1))
            = sorted.take 3 := by
          rw [List.filter_append]
          rw [List.filter_eq_self.mpr hkeptpred]
          rw [List.filter_eq_nil_iff.mpr (fun a ha => by rw [hrempred a ha]; simp)]
          simp
        rw [hsplit] at h5
        exact h5
      rw [← h4]
      exact h3
    have hevfr : ∀ p ∈ sorted.drop 3, ∀ e ∈ backupsFor p.2.id st1, e.ts < now :=
      fun p _ e he => hfr1 p.2.id e he
    have hevids : ((sorted.drop 3).map (fun p => p.2.id)).Nodup := by
      rw [List.map_congr_left (fun p hp => hidss p (List.mem_of_mem_drop hp))]
      exact hevkeys
    have hkeptids : ((sorted.take 3).map (fun p => p.2.id)).Nodup := by
      rw [List.map_congr_left (fun p hp => hidss p (List.mem_of_mem_take hp))]
      exact hkeptkeys
    obtain ⟨hfkeys, hfmem⟩ := truncateRemaining_sessions_spec now (sorted.take 3) st3
      (((hst3perm.map (fun p => p.1)).nodup_iff).mpr hkeptkeys)
      (fun p hp => hst3perm.symm.subset hp)
      hkeptkeys
      (fun r hr => Or.inl ⟨r, hst3perm.subset hr, rfl, rfl⟩)
    have hkeptfr : ∀ p ∈ sorted.take 3, ∀ e ∈ backupsFor p.2.id st3, e.ts < now := by
      intro p hp e he
      rw [hst3backs, ← hab,
        backupEvicted_backupsFor_ne now (sorted.drop 3) st1 p.2.id
          (by
            intro r hr hcc
            rw [hidss r (List.mem_of_mem_drop hr), hidss p (List.mem_of_mem_take hp)] at hcc
            exact hdisj (List.mem_map_of_mem (fun p => p.1) hp)
              (hcc ▸ List.mem_map_of_mem (fun p => p.1) hr))] at he
      exact hfr1 p.2.id e he
    rw [hunfold]
    refine ⟨?_, ?_, ?_, ?_, ?_, ?_, ?_⟩
    · rw [truncateRemaining_errors]
      rw [show st3.errors = ab.1.errors from by rw [← hst3]]
      rw [← hab, backupEvicted_errors, hst1err]
    · rw [truncateRemaining_tabStates]
      rw [show st3.tabStates = ab.1.tabStates from by rw [← hst3]]
      rw [← hab, backupEvicted_tabStates, hst1tab]
    · have hlen1 : ((truncateRemaining now (sorted.take 3) st3).1).sessions.length
          = st3.sessions.length := by
        have := congrArg List.length hfkeys
        simpa using this
      rw [hlen1, hst3perm.length_eq, List.length_take]
      omega
    · intro r hr
      obtain ⟨hle, q, hq, h1, h2⟩ := hfmem r hr
      rw [hst3sess] at hq
      exact ⟨hle, q, (List.mem_filter.mp hq).1, h1, h2⟩
    · intro q hq hnot
      rw [hfkeys] at hnot
      have hqsorted : q ∈ sorted := hsortperm.symm.subset hq
      have hqev : q ∈ sorted.drop 3 := by
        rw [← hsplit] at hqsorted
        rcases List.mem_append.mp hqsorted with h1 | h1
        · exact absurd ((hst3perm.map (fun p => p.1)).symm.subset
            (List.mem_map_of_mem (fun p => p.1) h1)) hnot
        · exact h1
      have hmem := backupEvicted_mem now (sorted.drop 3) st1 hevids hevfr q hqev
      rw [hab] at hmem
      rw [truncateRemaining_backupsFor_ne now (sorted.take 3) st3 q.2.id
        (by
          intro p hp hcc
          rw [hidss p (List.mem_of_mem_take hp), hidss q hqsorted] at hcc
          exact hnot ((hst3perm.map (fun p => p.1)).symm.subset
            (hcc ▸ List.mem_map_of_mem (fun p => p.1) hp)))]
      rw [hst3backs]
      exact hmem
    · intro q hq hin hbigq
      rw [hfkeys] at hin
      have hqsorted : q ∈ sorted := hsortperm.symm.subset hq
      have hqkept : q ∈ sorted.take 3 := by
        rw [← hsplit] at hqsorted
        rcases List.mem_append.mp hqsorted with h1 | h1
        · exact h1
        · exact absurd ((hst3perm.map (fun p => p.1)).subset hin)
            (fun hc => hdisj hc (List.mem_map_of_mem (fun p => p.1) h1))
      exact truncateRemaining_mem_backup now (sorted.take 3) st3 hkeptids hkeptfr
        q hqkept hbigq
    · intro q hq hnot r hr hin
      rw [hfkeys] at hnot hin
      have hqsorted : q ∈ sorted := hsortperm.symm.subset hq
      have hrsorted : r ∈ sorted := hsortperm.symm.subset hr
      have hqev : q ∈ sorted.drop 3 := by
        rw [← hsplit] at hqsorted
        rcases List.mem_append.mp hqsorted with h1 | h1
        · exact absurd ((hst3perm.map (fun p => p.1)).symm.subset
            (List.mem_map_of_mem (fun p => p.1) h1)) hnot
        · exact h1
      have hrkept : r ∈ sorted.take 3 := by
        rw [← hsplit] at hrsorted
        rcases List.mem_append.mp hrsorted with h1 | h1
        · exact h1
        · exact absurd ((hst3perm.map (fun p => p.1)).subset hin)
            (fun hc => hdisj hc (List.mem_map_of_mem (fun p => p.1) h1))
      have hcross := (List.pairwise_append.mp (by rw [hsplit]; exact hdesc)).2.2
      exact hcross r hrkept q hqev
  · have hunfold2 : (performEmergencyCleanup now st).1
        = (truncateRemaining now st.sessions st1).1 := by
      simp only [performEmergencyCleanup]
      rw [if_neg hbig3, hst1]
    have hsub1 : ∀ p ∈ st.sessions, p ∈ st1.sessions := by
      intro p hp
      rw [hst1sess]
      exact hp
    have hkeys1 : (st1.sessions.map (fun p => p.1)).Nodup := by
      rw [hst1sess]
      exact hkeys
    obtain ⟨hfkeys, hfmem⟩ := truncateRemaining_sessions_spec now st.sessions st1
      hkeys1 hsub1 hkeys
      (by
        intro r hr
        rw [hst1sess] at hr
        exact Or.inl ⟨r, hr, rfl, rfl⟩)
    have hids1 : (st.sessions.map (fun p => p.2.id)).Nodup := by
      rw [List.map_congr_left hids]
      exact hkeys
    have hfr0 : ∀ p ∈ st.sessions, ∀ e ∈ backupsFor p.2.id st1, e.ts < now :=
      fun p _ e he => hfr1 p.2.id e he
    rw [hunfold2]
    refine ⟨?_, ?_, ?_, ?_, ?_, ?_, ?_⟩
    · rw [truncateRemaining_errors, hst1err]
    · rw [truncateRemaining_tabStates, hst1tab]
    · have hlen1 : ((truncateRemaining now st.sessions st1).1).sessions.length
          = st1.sessions.length := by
        have := congrArg List.length hfkeys
        simpa using this
      rw [hlen1, hst1sess]
      omega
    · intro r hr
      obtain ⟨hle, q, hq, h1, h2⟩ := hfmem r hr
      rw [hst1sess] at hq
      exact ⟨hle, q, hq, h1, h2⟩
    · intro q hq hnot
      rw [hfkeys, hst1sess] at hnot
      exact absurd (List.mem_map_of_mem (fun p => p.1) hq) hnot
    · intro q hq _ hbigq
      exact truncateRemaining_mem_backup now st.sessions st1 hids1 hfr0 q hq hbigq
    · intro q hq hnot r hr hin
      rw [hfkeys, hst1sess] at hnot
      exact absurd (List.mem_map_of_mem (fun p => p.1) hq) hnot

/-- A session with no messages, used by the emergency-cleanup witness. -/
def emgSession (i : String) (la : Int) : Session :=
  { id := i
    messages := []
    createdAt := 1
    lastActivity := la }

/-- A four-session store (so that the eviction branch of
performEmergencyCleanup runs), keys agreeing with the stored ids. -/
def edgeStore : Store :=
  { sessions := [("a", emgSession "a" 4), ("b", emgSession "b" 3),
      ("c", emgSession "c" 2), ("d", emgSession "d" 1)]
    backups := []
    tabStates := []
    errors := []
    sidebarVisible := none
    currentSession := none }

theorem performEmergencyCleanup_spec_witness :
    (∀ p ∈ edgeStore.sessions, p.2.id = p.1)
      ∧ (edgeStore.sessions.map (fun p => p.1)).Nodup
      ∧ (∀ e ∈ edgeStore.backups, e.ts < 9)
      ∧ (((performEmergencyCleanup 9 edgeStore).1).errors = []
        ∧ ((performEmergencyCleanup 9 edgeStore).1).tabStates = []
        ∧ ((performEmergencyCleanup 9 edgeStore).1).sessions.length ≤ 3
        ∧ (∀ r ∈ ((performEmergencyCleanup 9 edgeStore).1).sessions,
            r.2.messages.length ≤ 100
              ∧ ∃ q ∈ edgeStore.sessions, r.1 = q.1
                  ∧ r.2.messages = q.2.messages.drop (q.2.messages.length - 100))
        ∧ (∀ q ∈ edgeStore.sessions,
            q.1 ∉ ((performEmergencyCleanup 9 edgeStore).1).sessions.map (fun p => p.1) →
              ({ sessionId := q.2.id, ts := 9, data := mkBackup q.2.id q.2 9 } : BackupEntry)
                ∈ backupsFor q.2.id ((performEmergencyCleanup 9 edgeStore).1))
        ∧ (∀ q ∈ edgeStore.sessions,
            q.1 ∈ ((performEmergencyCleanup 9 edgeStore).1).sessions.map (fun p => p.1) →
              q.2.messages.length > 100 →
              ({ sessionId := q.2.id, ts := 9, data := mkBackup q.2.id q.2 9 } : BackupEntry)
                ∈ backupsFor q.2.id ((performEmergencyCleanup 9 edgeStore).1))
        ∧ (∀ q ∈ edgeStore.sessions,
            q.1 ∉ ((performEmergencyCleanup 9 edgeStore).1).sessions.map (fun p => p.1) →
              ∀ r ∈ edgeStore.sessions,
                r.1 ∈ ((performEmergencyCleanup 9 edgeStore).1).sessions.map (fun p => p.1) →
                  q.2.lastActivity ≤ r.2.lastActivity)) :=
  ⟨by decide, by decide, by decide,
    performEmergencyCleanup_spec 9 edgeStore (by decide) (by decide) (by decide)⟩
